import Mathlib

/-!
Verification of the gitops-promoter promotion core against its
natural-language specification.  The Go sources are shallowly embedded as
executable Lean definitions: strings stay strings (the sanitized strings the
byte-level Go operations act on are pure ASCII, so byte counts and rune
counts agree), machine integers become Nat with explicit reduction modulo
2^32 where the Go code overflows, Go panics become Option, and the
Kubernetes API calls of the reconcilers become explicit oracles / pure
stores threaded through the control flow.
-/

namespace Promoter

/-! ## String utilities (internal/utils/utils.go)

The Go sanitizer is the regexp `[^a-zA-Z0-9]+` whose matches are replaced by
a single hyphen, i.e. every maximal run of non-alphanumeric characters
collapses to one `-`. -/

def isAlnum (c : Char) : Bool :=
  ('a' ≤ c && c ≤ 'z') || ('A' ≤ c && c ≤ 'Z') || ('0' ≤ c && c ≤ '9')

/-- Run-collapsing replacement of non-alphanumeric characters by a hyphen.
The boolean state records whether we are inside a non-alphanumeric run whose
hyphen has already been emitted. -/
def sanitizeAux : Bool → List Char → List Char
  | _, [] => []
  | inRun, c :: cs =>
    if isAlnum c then c :: sanitizeAux false cs
    else if inRun then sanitizeAux true cs
    else '-' :: sanitizeAux true cs

/-- m1.ReplaceAllString(name, "-") for m1 = regexp [^a-zA-Z0-9]+ -/
def sanitize (l : List Char) : List Char := sanitizeAux false l

/-- strings.ToLower on the sanitizer output (which is ASCII). -/
def asciiLower (c : Char) : Char :=
  if 'A' ≤ c && c ≤ 'Z' then Char.ofNat (c.toNat + 32) else c

/-- FNV-1a 32-bit parameters (hash/fnv). -/
def fnvOffsetBasis : Nat := 2166136261

def fnvPrime32 : Nat := 16777619

/-- fnv.New32a() followed by Write of the given bytes; arithmetic is
uint32, hence the reduction modulo 2^32 after the multiplication. -/
def fnv32a (bytes : List Nat) : Nat :=
  bytes.foldl (fun h b => ((h ^^^ b) * fnvPrime32) % 4294967296) fnvOffsetBasis

def hexDigit (n : Nat) : Char :=
  if n < 10 then Char.ofNat (48 + n) else Char.ofNat (87 + n)

/-- fmt.Sprintf("%x", n): minimal-length lowercase hexadecimal, "0" for 0. -/
def toHex (n : Nat) : List Char :=
  if h : n < 16 then [hexDigit n]
  else toHex (n / 16) ++ [hexDigit (n % 16)]
termination_by n
decreasing_by
  exact Nat.div_lt_self (by omega) (by omega)

/-- utils.TruncateString: keep at most `len` runes, empty result for a
non-positive requested length. -/
def truncateString (l : List Char) (len : Int) : List Char :=
  if len ≤ 0 then [] else l.take len.toNat

/-- utils.TruncateStringFromBeginning: keep the last `len` characters. -/
def truncateStringFromBeginning (l : List Char) (len : Int) : List Char :=
  if len ≤ 0 then []
  else if (l.length : Int) ≤ len then l
  else l.drop (l.length - len.toNat)

/-- utils.KubeSafeUniqueName.  The Go code indexes `name[len(name)-1]`
without an emptiness guard; the panic on the empty sanitized string is
modelled by `none`. -/
def kubeSafeUniqueName (s : String) : Option String :=
  let name := (sanitize s.data).map asciiLower
  let hash := toHex (fnv32a (name.map Char.toNat))
  match name.getLast? with
  | none => none
  | some last =>
    let name1 := if last = '-' then name.dropLast else name
    let name2 := name1 ++ '-' :: hash
    some (String.mk (truncateString name2 (255 - (hash.length : Int) - 1)))

/-- The unique-name pipeline as the specification words it: replace every
run of non-alphanumeric characters with a hyphen, lowercase, compute the
32-bit FNV-1a hash of that sanitized value rendered as lowercase hex
without leading zeros, strip one trailing hyphen if present, append the
hash after a hyphen, and truncate to 255 - len(hash) - 1 characters, the
truncation coming after the hash is appended. -/
def specUniqueName (s : String) : String :=
  let sanitized := (sanitize s.data).map asciiLower
  let hash := toHex (fnv32a (sanitized.map Char.toNat))
  let stripped := if sanitized.getLast? = some '-' then sanitized.dropLast else sanitized
  let appended := stripped ++ '-' :: hash
  String.mk (appended.take (255 - hash.length - 1))

/-- The Go statement `if name[0] == '-' { name = name[1:] }`.  KubeSafeLabel
only reaches it with a non-empty `name`, so the nil case is unreachable
there. -/
def stripLeadingHyphen : List Char → List Char
  | [] => []
  | c :: rest => if c = '-' then rest else c :: rest

/-- utils.KubeSafeLabel: sanitize, keep the last 63 characters, remove one
leading hyphen; the empty string maps to itself. -/
def kubeSafeLabel (s : String) : String :=
  if s = "" then ""
  else
    let name := sanitize s.data
    let name1 := truncateStringFromBeginning name 63
    String.mk (stripLeadingHyphen name1)

/-- Character set [A-Za-z0-9._-] allowed in label values. -/
def labelChar (c : Char) : Bool :=
  isAlnum c || c = '-' || c = '.' || c = '_'

/-- No two adjacent hyphens. -/
def noDoubleHyphen : List Char → Bool
  | [] => true
  | [_] => true
  | a :: b :: rest => !(a = '-' && b = '-') && noDoubleHyphen (b :: rest)

/-! ## Resource model (api/v1alpha1, reduced to the fields the core reads)

Commit times are unix instants as integers; metav1.Time.After is integer
strict comparison.  Labels and annotations are association lists with the Go
map convention that a missing key reads as the empty string. -/

def getLabel (ls : List (String × String)) (k : String) : String :=
  match ls.find? (fun p => p.1 == k) with
  | some p => p.2
  | none => ""

def setLabel (ls : List (String × String)) (k v : String) : List (String × String) :=
  if (ls.find? (fun p => p.1 == k)).isSome then
    ls.map (fun p => if p.1 == k then (k, v) else p)
  else ls ++ [(k, v)]

structure CommitStatusSpec where
  sha : String
  name : String
  description : String
  state : String
  url : String
  owner : String
  repoName : String
deriving DecidableEq

structure CommitStatusRec where
  name : String
  labels : List (String × String)
  annotations : List (String × String)
  spec : CommitStatusSpec
  statusState : String
deriving DecidableEq

structure CommitStatusSelector where
  key : String
deriving DecidableEq

structure ShaTime where
  sha : String
  commitTime : Int
deriving DecidableEq

structure DryHydrated where
  dry : ShaTime
  hydrated : ShaTime
deriving DecidableEq

structure ProposedCommitStatus where
  active : DryHydrated
  proposed : DryHydrated
deriving DecidableEq

structure ProposedCommit where
  name : String
  status : ProposedCommitStatus
deriving DecidableEq

structure RollupStatus where
  state : String
  sha : String
deriving DecidableEq

structure BranchStateStatus where
  dry : ShaTime
  hydrated : ShaTime
  commitStatus : RollupStatus
deriving DecidableEq

structure EnvironmentStatus where
  branch : String
  active : BranchStateStatus
  proposed : BranchStateStatus
  lastHealthyDryShas : List String
deriving DecidableEq

structure Environment where
  branch : String
  autoMerge : Option Bool
  activeCommitStatuses : List CommitStatusSelector
  proposedCommitStatuses : List CommitStatusSelector
deriving DecidableEq

/-- Modelled from the spec: Environment.GetAutoMerge of the api package (not
under src) — the optional autoMerge flag defaults to true. -/
def Environment.getAutoMerge (e : Environment) : Bool := e.autoMerge.getD true

structure PromotionStrategySpec where
  environments : List Environment
  activeCommitStatuses : List CommitStatusSelector
  proposedCommitStatuses : List CommitStatusSelector
deriving DecidableEq

structure PromotionStrategy where
  name : String
  spec : PromotionStrategySpec
  statusEnvironments : List EnvironmentStatus
deriving DecidableEq

/-- Modelled from the spec: PullRequestState constants of the api package
(not under src) — desired/observed state is one of open, merged, closed. -/
def prOpen : String := "open"

def prMerged : String := "merged"

def prClosed : String := "closed"

structure PullRequest where
  name : String
  labels : List (String × String)
  specState : String
  statusState : String
  generation : Nat
  observedGeneration : Nat
  deletionTimestampIsZero : Bool
  finalizers : List String
deriving DecidableEq

/-- Go zero values for the records reached through zero-valued map reads. -/
def emptyShaTime : ShaTime := { sha := "", commitTime := 0 }

def emptyDryHydrated : DryHydrated := { dry := emptyShaTime, hydrated := emptyShaTime }

def emptyProposedCommit : ProposedCommit :=
  { name := "", status := { active := emptyDryHydrated, proposed := emptyDryHydrated } }

def emptyRollup : RollupStatus := { state := "", sha := "" }

def emptyBranchStateStatus : BranchStateStatus :=
  { dry := emptyShaTime, hydrated := emptyShaTime, commitStatus := emptyRollup }

def emptyEnvironmentStatus : EnvironmentStatus :=
  { branch := "", active := emptyBranchStateStatus, proposed := emptyBranchStateStatus,
    lastHealthyDryShas := [] }

/-! ## Label keys -/

def commitStatusLabel : String := "promoter.argoproj.io/commit-status"

def commitStatusCopyLabel : String := "promoter.argoproj.io/commit-status-copy"

def copyFromLabel : String := "promoter.argoproj.io/commit-status-copy-from"

def copyFromShaLabel : String := "promoter.argoproj.io/commit-status-copy-from-sha"

def copyFromBranchLabel : String := "promoter.argoproj.io/commit-status-copy-from-branch"

def promotionStrategyLabel : String := "promoter.argoproj.io/promotion-strategy"

def proposedCommitLabel : String := "promoter.argoproj.io/proposed-commit"

def environmentLabel : String := "promoter.argoproj.io/environment"

/-! ## utils.go helpers over the resource model -/

/-- utils.UpsertEnvironmentStatus: replace the first entry with a matching
branch, append when none matches (the Go len==0 fast path coincides with the
nil case). -/
def upsertEnvironmentStatus : List EnvironmentStatus → EnvironmentStatus → List EnvironmentStatus
  | [], i => [i]
  | e :: rest, i =>
    if e.branch == i.branch then i :: rest else e :: upsertEnvironmentStatus rest i

/-- utils.GetEnvironmentsFromStatusInOrder: status entries re-ordered by the
spec environment order (entries for branches absent from spec are dropped,
entries matching several spec environments repeat). -/
def getEnvironmentsFromStatusInOrder (ps : PromotionStrategy) : List EnvironmentStatus :=
  ps.spec.environments.flatMap
    (fun se => ps.statusEnvironments.filter (fun st => se.branch == st.branch))

def findEnvAux (branch : String) : Nat → List EnvironmentStatus → Option (Nat × EnvironmentStatus)
  | _, [] => none
  | i, e :: rest =>
    if e.branch == branch then some (i, e) else findEnvAux branch (i + 1) rest

/-- utils.GetEnvironmentStatusByBranch: first index and entry of the ordered
status list with the given branch; the Go (-1, nil) result is none. -/
def getEnvironmentStatusByBranch (ps : PromotionStrategy) (branch : String) :
    Option (Nat × EnvironmentStatus) :=
  findEnvAux branch 0 (getEnvironmentsFromStatusInOrder ps)

def findPrevAux (branch : String) :
    Option EnvironmentStatus → Nat → List EnvironmentStatus → Option (Nat × EnvironmentStatus)
  | _, _, [] => none
  | prev?, i, e :: rest =>
    if e.branch == branch then
      match prev? with
      | some p => some (i + 1, p)
      | none => findPrevAux branch (some e) (i + 1) rest
    else findPrevAux branch (some e) (i + 1) rest

/-- utils.GetPreviousEnvironmentStatusByBranch: the Go loop keeps scanning
past a match at index 0 (the i-1 >= 0 guard fails there without returning),
and otherwise returns (i+1, pointer to the entry before the match). -/
def getPreviousEnvironmentStatusByBranch (ps : PromotionStrategy) (branch : String) :
    Option (Nat × EnvironmentStatus) :=
  findPrevAux branch none 0 (getEnvironmentsFromStatusInOrder ps)

/-! ## PromotionStrategy reconciler (internal/controller/promotionstrategy_controller.go)

The CommitStatus store is a list; r.List with the commit-status label
selector and the .spec.sha field selector is a filter over it. -/

/-- r.List of CommitStatus with label commit-status = KubeSafeLabel(key) and
field selector .spec.sha = sha. -/
def listCommitStatuses (store : List CommitStatusRec) (key : String) (sha : String) :
    List CommitStatusRec :=
  store.filter
    (fun cs => getLabel cs.labels commitStatusLabel == kubeSafeLabel key && cs.spec.sha == sha)

/-- The copies filter: records with label commit-status-copy = "true" are
excluded from gating evaluation. -/
def nonCopySlice (l : List CommitStatusRec) : List CommitStatusRec :=
  l.filter (fun cs => getLabel cs.labels commitStatusCopyLabel != "true")

/-- One key-list pass of the bubbling loops of calculateStatus: exactly one
match appends to the collected list, zero or several matches write a
sentinel into the rolled-up status at index i. -/
def bubbleUpKeys (store : List CommitStatusRec) (keys : List CommitStatusSelector)
    (sha : String) (init : RollupStatus) : RollupStatus × List CommitStatusRec :=
  keys.foldl
    (fun acc sel =>
      match nonCopySlice (listCommitStatuses store sel.key sha) with
      | [cs] => (acc.1, acc.2 ++ [cs])
      | [] => ({ state := "no-commit-status-found", sha := "no-commit-status-found" }, acc.2)
      | _ => ({ state := "to-many-matching-sha", sha := "to-many-matching-sha" }, acc.2))
    (init, [])

/-- The override loop after a non-empty collected list: state starts at
success and the first entry whose status.state is not success overrides the
rollup with its (spec.state, spec.sha); the loop breaks there. -/
def overrideRollup (collected : List CommitStatusRec) (success : RollupStatus) : RollupStatus :=
  match collected.find? (fun cs => cs.statusState != "success") with
  | some cs => { state := cs.spec.state, sha := cs.spec.sha }
  | none => success

/-- The fresh status entry upserted for an environment: SHAs and commit
times from the ProposedCommit, both rollups initialized to unknown, and the
LastHealthyDryShas zero value. -/
def freshEnvironmentStatus (environment : Environment) (pc : ProposedCommit) : EnvironmentStatus :=
  { branch := environment.branch
    active :=
      { dry := pc.status.active.dry
        hydrated := pc.status.active.hydrated
        commitStatus := { state := "unknown", sha := "unknown" } }
    proposed :=
      { dry := pc.status.proposed.dry
        hydrated := pc.status.proposed.hydrated
        commitStatus := { state := "unknown", sha := "unknown" } }
    lastHealthyDryShas := [] }

/-- ps.Status.Environments[i] (Go panics when i is out of range; the model
returns the zero value, which is unreachable in the proved runs). -/
def getIdx (l : List EnvironmentStatus) (i : Int) : EnvironmentStatus :=
  if i < 0 then emptyEnvironmentStatus else l.getD i.toNat emptyEnvironmentStatus

/-- write to ps.Status.Environments[i] (same remark as getIdx). -/
def setIdx (l : List EnvironmentStatus) (i : Int) (e : EnvironmentStatus) :
    List EnvironmentStatus :=
  if i < 0 then l else l.set i.toNat e

/-- The per-entry computation of one calculateStatus loop iteration carried
out on the entry at index i, after the upsert: active bubbling, the
empty-collected-list branch (which writes the PROPOSED rollup in the
source), proposed bubbling, and the proposed override loop (which scans the
ACTIVE collected list in the source). -/
def rollupEnvEntry (psSpec : PromotionStrategySpec) (store : List CommitStatusRec)
    (environment : Environment) (pc : ProposedCommit) (i : Int)
    (entry : EnvironmentStatus) : EnvironmentStatus :=
  let activeKeys := environment.activeCommitStatuses ++ psSpec.activeCommitStatuses
  let resA := bubbleUpKeys store activeKeys pc.status.active.hydrated.sha
    entry.active.commitStatus
  let entryA := { entry with active := { entry.active with commitStatus := resA.1 } }
  let entryB :=
    if resA.2.isEmpty && decide (0 ≤ i) then
      { entryA with proposed := { entryA.proposed with
          commitStatus := { state := "success", sha := pc.status.active.hydrated.sha } } }
    else
      { entryA with active := { entryA.active with
          commitStatus := overrideRollup resA.2 { state := "success", sha := resA.1.sha } } }
  let proposedKeys := environment.proposedCommitStatuses ++ psSpec.proposedCommitStatuses
  let resP := bubbleUpKeys store proposedKeys pc.status.proposed.hydrated.sha
    entryB.proposed.commitStatus
  let entryC := { entryB with proposed := { entryB.proposed with commitStatus := resP.1 } }
  if resP.2.isEmpty && decide (0 ≤ i) then
    { entryC with proposed := { entryC.proposed with
        commitStatus := { state := "success", sha := pc.status.active.hydrated.sha } } }
  else
    { entryC with proposed := { entryC.proposed with
        commitStatus := overrideRollup resA.2 { state := "success", sha := resP.1.sha } } }

/-- One iteration of the calculateStatus loop: upsert the fresh entry,
locate its ordered index, the dead LastHealthyDryShas guard (its Go form
`i >= len(...) && len(...[i].LastHealthyDryShas) > 10` either is false or
panics on the indexing; in the model it reads the zero value and is always
false), then the bubbling writes at index i. -/
def calculateStatusEnv (store : List CommitStatusRec) (ps : PromotionStrategy)
    (environment : Environment) (pc : ProposedCommit) : PromotionStrategy :=
  let ps1 := { ps with statusEnvironments :=
    upsertEnvironmentStatus ps.statusEnvironments (freshEnvironmentStatus environment pc) }
  let i : Int :=
    match getEnvironmentStatusByBranch ps1 environment.branch with
    | some p => (p.1 : Int)
    | none => -1
  let envs1 :=
    if decide ((ps1.statusEnvironments.length : Int) ≤ i) &&
        decide ((getIdx ps1.statusEnvironments i).lastHealthyDryShas.length > 10) then
      setIdx ps1.statusEnvironments i
        { (getIdx ps1.statusEnvironments i) with
          lastHealthyDryShas := (getIdx ps1.statusEnvironments i).lastHealthyDryShas.take 10 }
    else ps1.statusEnvironments
  let entry := getIdx envs1 i
  { ps1 with
    statusEnvironments := setIdx envs1 i (rollupEnvEntry ps.spec store environment pc i entry) }

/-- One monadic step of the calculateStatus loop. -/
def calcStep (store : List CommitStatusRec) (pcMap : String → Option ProposedCommit)
    (acc : PromotionStrategy) (environment : Environment) : Except String PromotionStrategy :=
  match pcMap environment.branch with
  | none => Except.error ("ProposedCommit not found for branch " ++ environment.branch)
  | some pc => Except.ok (calculateStatusEnv store acc environment pc)

/-- calculateStatus: fold the per-environment iteration over the spec
environments, failing like the source when the ProposedCommit map misses a
branch. -/
def calculateStatus (store : List CommitStatusRec) (ps : PromotionStrategy)
    (pcMap : String → Option ProposedCommit) : Except String PromotionStrategy :=
  ps.spec.environments.foldlM (calcStep store pcMap) ps

/-! ## copyCommitStatuses -/

inductive CSAction where
  | create (cs : CommitStatusRec)
  | update (cs : CommitStatusRec)
deriving DecidableEq

/-- The CommitStatus created for a missing proposed copy (lines building the
new record in copyCommitStatuses): name "proposed-<orig>", labels of the
original plus the four copy labels, sha redirected to the proposed hydrated
sha, display name prefixed by the branch, url pointing at the origin
commit.  A newly created record has a zero status. -/
def mkCopiedStatus (commitStatus : CommitStatusRec) (copyFrom copyTo branch : String) :
    CommitStatusRec :=
  { name := "proposed-" ++ commitStatus.name
    labels :=
      setLabel (setLabel (setLabel (setLabel commitStatus.labels
        commitStatusCopyLabel "true")
        copyFromLabel (kubeSafeLabel commitStatus.spec.name))
        copyFromShaLabel (kubeSafeLabel copyFrom))
        copyFromBranchLabel (kubeSafeLabel branch)
    annotations := commitStatus.annotations
    spec := { commitStatus.spec with
      sha := copyTo
      name := branch ++ " - " ++ commitStatus.spec.name
      url := "https://github.com/" ++ commitStatus.spec.owner ++ "/" ++
        commitStatus.spec.repoName ++ "/commit/" ++ copyFrom }
    statusState := "" }

/-- The in-place update of an existing copy: the original spec is deep-copied
over, then sha, display name and url are rewritten, and the copy labels are
set on the existing record's labels. -/
def mkUpdatedStatus (existing commitStatus : CommitStatusRec) (copyFrom copyTo branch : String) :
    CommitStatusRec :=
  { existing with
    labels :=
      setLabel (setLabel (setLabel (setLabel existing.labels
        commitStatusCopyLabel "true")
        copyFromLabel (kubeSafeLabel commitStatus.spec.name))
        copyFromShaLabel (kubeSafeLabel copyFrom))
        copyFromBranchLabel (kubeSafeLabel branch)
    spec := { commitStatus.spec with
      sha := copyTo
      name := branch ++ " - " ++ commitStatus.spec.name
      url := "https://github.com/" ++ commitStatus.spec.owner ++ "/" ++
        commitStatus.spec.repoName ++ "/commit/" ++ copyFrom } }

/-- The inner loop of copyCommitStatuses over the statuses matching one key:
copies are skipped; a missing proposed copy is created and the whole
function returns (the boolean flags the early return); an existing copy is
updated and the loop continues. -/
def copyMatching (store : List CommitStatusRec) (copyFrom copyTo branch : String) :
    List CommitStatusRec → List CSAction × Bool
  | [] => ([], false)
  | commitStatus :: rest =>
    if getLabel commitStatus.labels commitStatusCopyLabel == "true" then
      copyMatching store copyFrom copyTo branch rest
    else
      match store.find? (fun c => c.name == "proposed-" ++ commitStatus.name) with
      | none => ([CSAction.create (mkCopiedStatus commitStatus copyFrom copyTo branch)], true)
      | some existing =>
        let res := copyMatching store copyFrom copyTo branch rest
        (CSAction.update (mkUpdatedStatus existing commitStatus copyFrom copyTo branch) :: res.1,
          res.2)

/-- copyCommitStatuses: iterate the key selectors; the early return after a
creation aborts the remaining keys as well. -/
def copyCommitStatuses (store : List CommitStatusRec) :
    List CommitStatusSelector → String → String → String → List CSAction
  | [], _, _, _ => []
  | sel :: restSel, copyFrom, copyTo, branch =>
    let res := copyMatching store copyFrom copyTo branch (listCommitStatuses store sel.key copyFrom)
    if res.2 then res.1
    else res.1 ++ copyCommitStatuses store restSel copyFrom copyTo branch

/-! ## The merge decision of Reconcile -/

/-- The PullRequest label selector of the merge step. -/
def prSelector (psName pcName branch : String) (pr : PullRequest) : Bool :=
  getLabel pr.labels promotionStrategyLabel == kubeSafeLabel psName &&
  getLabel pr.labels proposedCommitLabel == kubeSafeLabel pcName &&
  getLabel pr.labels environmentLabel == kubeSafeLabel branch

/-- The gate of the merge step: first environment, or active and proposed
checks passed, and autoMerge.  activeChecksPassed dereferences the current
environment status for the commit-time comparison; the Go code panics when
that status is nil (unreachable once calculateStatus ran), modelled as
false. -/
def mergeGate (ps : PromotionStrategy) (pcMap : String → Option ProposedCommit)
    (environment : Environment) : Bool :=
  let previousEnvironmentStatus :=
    (getPreviousEnvironmentStatusByBranch ps environment.branch).map Prod.snd
  let envLookup := getEnvironmentStatusByBranch ps environment.branch
  let environmentIndex : Int := match envLookup with | some p => (p.1 : Int) | none => -1
  let environmentStatus := envLookup.map Prod.snd
  let pc := (pcMap environment.branch).getD emptyProposedCommit
  let activeChecksPassed :=
    match previousEnvironmentStatus with
    | some prev =>
      prev.active.commitStatus.state == "success" &&
      prev.active.dry.sha == pc.status.proposed.dry.sha &&
      (match environmentStatus with
       | some es => decide (prev.active.dry.commitTime > es.active.dry.commitTime)
       | none => false)
    | none => false
  let proposedChecksPassed :=
    match environmentStatus with
    | some es => es.proposed.commitStatus.state == "success"
    | none => false
  (environmentIndex == 0 || (activeChecksPassed && proposedChecksPassed)) &&
    environment.getAutoMerge

/-- Set the PR with the given name to desired state merged (the effect of
the retry-on-conflict get/update). -/
def flipPR (prStore : List PullRequest) (name : String) : List PullRequest :=
  prStore.map (fun pr => if pr.name == name then { pr with specState := prMerged } else pr)

/-- One iteration of the Reconcile environment loop after calculateStatus:
the forward copy when the previous environment's active dry sha equals the
current proposed dry sha, then the gate and the open→merged flip of the
first selected PullRequest.  Returns the copy actions, the updated PR store
and the (branch, PR name) of a flip when one happened. -/
def promoteEnvironment (ps : PromotionStrategy) (store : List CommitStatusRec)
    (prStore : List PullRequest) (pcMap : String → Option ProposedCommit)
    (environment : Environment) :
    List CSAction × List PullRequest × Option (String × String) :=
  let previousEnvironmentStatus :=
    (getPreviousEnvironmentStatusByBranch ps environment.branch).map Prod.snd
  let pc := (pcMap environment.branch).getD emptyProposedCommit
  let copyActs :=
    match previousEnvironmentStatus with
    | some prev =>
      if prev.active.dry.sha == pc.status.proposed.dry.sha then
        copyCommitStatuses store
          (environment.activeCommitStatuses ++ ps.spec.activeCommitStatuses)
          prev.active.hydrated.sha pc.status.proposed.hydrated.sha prev.branch
      else []
    | none => []
  if mergeGate ps pcMap environment then
    match prStore.filter (prSelector ps.name pc.name environment.branch) with
    | [] => (copyActs, prStore, none)
    | pr0 :: _ =>
      if pr0.specState == prOpen && pr0.statusState == prOpen then
        (copyActs, flipPR prStore pr0.name, some (environment.branch, pr0.name))
      else (copyActs, prStore, none)
  else (copyActs, prStore, none)

structure ReconcileResult where
  requeue : Bool
  requeueAfterSeconds : Nat
deriving DecidableEq

/-- The flag default "60s" of cmd/main.go
(promotion-strategy-requeue-duration). -/
def promotionStrategyRequeueDefaultSeconds : Nat := 60

structure PromotionReconcileOutcome where
  ps : PromotionStrategy
  copyActions : List CSAction
  mergedPRs : List (String × String)
  prStore : List PullRequest
  result : ReconcileResult
deriving DecidableEq

/-- The PromotionStrategy Reconcile core after the strategy fetch and the
ProposedCommit creation wait (the pcMap oracle): calculateStatus, the
per-environment copy/merge loop, the status write, and the literal
`ctrl.Result{Requeue: true, RequeueAfter: 10 * time.Second}` return. -/
def reconcilePromotionStrategy (store : List CommitStatusRec) (prStore : List PullRequest)
    (ps0 : PromotionStrategy) (pcMap : String → Option ProposedCommit) :
    Except String PromotionReconcileOutcome :=
  match calculateStatus store ps0 pcMap with
  | Except.error e => Except.error e
  | Except.ok ps =>
    let final := ps.spec.environments.foldl
      (fun (acc : List CSAction × List PullRequest × List (String × String)) environment =>
        let step := promoteEnvironment ps store acc.2.1 pcMap environment
        (acc.1 ++ step.1, step.2.1, acc.2.2 ++ step.2.2.toList))
      ([], prStore, [])
    Except.ok
      { ps := ps
        copyActions := final.1
        mergedPRs := final.2.2
        prStore := final.2.1
        result := { requeue := true, requeueAfterSeconds := 10 } }

/-! ## PullRequest reconciler (its Reconcile control flow) -/

inductive PRAction where
  | addFinalizer
  | removeFinalizer
  | providerClose
  | providerCreate
  | providerMerge
  | providerUpdate
  | statusUpdate
  | deleteSelf
deriving DecidableEq

inductive DeleteOutcome where
  | ok
  | notFound
  | err
deriving DecidableEq

/-- The oracle for the fallible calls of one PullRequest reconciliation:
provider results are Bool/unit successes or errors (modelled as Option
results where none is an error), the self-delete can also report not-found. -/
structure PROracle where
  findOpen : Option Bool
  createOk : Bool
  mergeOk : Bool
  closeOk : Bool
  updateOk : Bool
  statusUpdateOk : Bool
  finalizerUpdateOk : Bool
  deleteResult : DeleteOutcome
  createdId : String
deriving DecidableEq

def prFinalizerName : String := "pullrequest.promoter.argoporoj.io/finalizer"

structure PRReconcileOutcome where
  isErr : Bool
  requeue : Bool
  actions : List PRAction
deriving DecidableEq

/-- handleFinalizer: add the finalizer when the object is live and lacks it;
on deletion with the finalizer present, close on the provider, remove the
finalizer and report deleted.  Returns (updated pr, deleted, error, actions). -/
def handleFinalizer (pr : PullRequest) (oracle : PROracle) :
    PullRequest × Bool × Bool × List PRAction :=
  if pr.deletionTimestampIsZero then
    if !(pr.finalizers.contains prFinalizerName) then
      if oracle.finalizerUpdateOk then
        ({ pr with finalizers := pr.finalizers ++ [prFinalizerName] }, false, false,
          [PRAction.addFinalizer])
      else (pr, false, true, [PRAction.addFinalizer])
    else (pr, false, false, [])
  else
    if pr.finalizers.contains prFinalizerName then
      if pr.statusState == prMerged then
        ({ pr with finalizers := pr.finalizers.filter (fun f => f != prFinalizerName) },
          true, false, [PRAction.removeFinalizer])
      else if oracle.closeOk then
        ({ { pr with statusState := prClosed } with
            finalizers := pr.finalizers.filter (fun f => f != prFinalizerName) },
          true, false, [PRAction.providerClose, PRAction.removeFinalizer])
      else (pr, false, true, [PRAction.providerClose])
    else (pr, false, false, [])

/-- The PullRequest Reconcile control flow from the point the record and the
provider are in hand: finalizer handling, FindOpen, the delete of a record
whose provider PR vanished (not-found on that delete swallowed), the no-op
fast path, then the create/merge/close/update state machine. -/
def reconcilePullRequest (pr0 : PullRequest) (oracle : PROracle) : PRReconcileOutcome :=
  let fin := handleFinalizer pr0 oracle
  if fin.2.2.1 then { isErr := true, requeue := false, actions := fin.2.2.2 }
  else if fin.2.1 then { isErr := false, requeue := false, actions := fin.2.2.2 }
  else
    let pr := fin.1
    let acts0 := fin.2.2.2
    match oracle.findOpen with
    | none => { isErr := true, requeue := false, actions := acts0 }
    | some found =>
      if !found && pr.statusState != "" then
        match oracle.deleteResult with
        | DeleteOutcome.ok =>
          { isErr := false, requeue := false, actions := acts0 ++ [PRAction.deleteSelf] }
        | DeleteOutcome.notFound =>
          { isErr := false, requeue := false, actions := acts0 ++ [PRAction.deleteSelf] }
        | DeleteOutcome.err =>
          { isErr := true, requeue := false, actions := acts0 ++ [PRAction.deleteSelf] }
      else if pr.statusState != "" && pr.specState == pr.statusState &&
          pr.observedGeneration == pr.generation then
        { isErr := false, requeue := false, actions := acts0 }
      else
        let afterCreate :=
          if pr.specState == prOpen && pr.statusState != prOpen then
            if oracle.createOk then
              some ({ pr with statusState := prOpen }, acts0 ++ [PRAction.providerCreate])
            else none
          else some (pr, acts0)
        match afterCreate with
        | none => { isErr := true, requeue := false, actions := acts0 ++ [PRAction.providerCreate] }
        | some st =>
          let pr1 := st.1
          let acts1 := st.2
          if pr1.specState == prMerged && pr1.statusState != prMerged then
            if oracle.mergeOk then
              if oracle.statusUpdateOk then
                { isErr := false, requeue := true,
                  actions := acts1 ++ [PRAction.providerMerge, PRAction.statusUpdate] }
              else
                { isErr := true, requeue := false,
                  actions := acts1 ++ [PRAction.providerMerge, PRAction.statusUpdate] }
            else { isErr := true, requeue := false, actions := acts1 ++ [PRAction.providerMerge] }
          else if pr1.specState == prClosed && pr1.statusState != prClosed then
            if pr1.statusState == prMerged then
              if oracle.statusUpdateOk then
                { isErr := false, requeue := true, actions := acts1 ++ [PRAction.statusUpdate] }
              else { isErr := true, requeue := false, actions := acts1 ++ [PRAction.statusUpdate] }
            else if oracle.closeOk then
              if oracle.statusUpdateOk then
                { isErr := false, requeue := true,
                  actions := acts1 ++ [PRAction.providerClose, PRAction.statusUpdate] }
              else
                { isErr := true, requeue := false,
                  actions := acts1 ++ [PRAction.providerClose, PRAction.statusUpdate] }
            else { isErr := true, requeue := false, actions := acts1 ++ [PRAction.providerClose] }
          else
            let afterUpdate :=
              if pr1.observedGeneration != pr1.generation then
                if oracle.updateOk then some (acts1 ++ [PRAction.providerUpdate]) else none
              else some acts1
            match afterUpdate with
            | none =>
              { isErr := true, requeue := false, actions := acts1 ++ [PRAction.providerUpdate] }
            | some acts2 =>
              if oracle.statusUpdateOk then
                { isErr := false, requeue := false, actions := acts2 ++ [PRAction.statusUpdate] }
              else
                { isErr := true, requeue := false, actions := acts2 ++ [PRAction.statusUpdate] }

/-! ## Concrete scenarios used by counterexamples and witnesses -/

def unknownRollup : RollupStatus := { state := "unknown", sha := "unknown" }

def extractOutcome (r : Except String PromotionReconcileOutcome)
    (d : PromotionReconcileOutcome) : PromotionReconcileOutcome :=
  match r with
  | Except.ok o => o
  | Except.error _ => d

/-- C1 scenario: one environment with zero configured check keys. -/
def envDevZero : Environment :=
  { branch := "env/dev", autoMerge := none, activeCommitStatuses := [],
    proposedCommitStatuses := [] }

def pcDevC1 : ProposedCommit :=
  { name := "pc-dev"
    status :=
      { active := { dry := { sha := "D1", commitTime := 10 },
                    hydrated := { sha := "H1", commitTime := 10 } }
        proposed := { dry := { sha := "D1", commitTime := 10 },
                      hydrated := { sha := "H1n", commitTime := 10 } } } }

def psC1 : PromotionStrategy :=
  { name := "ps"
    spec := { environments := [envDevZero], activeCommitStatuses := [],
              proposedCommitStatuses := [] }
    statusEnvironments := [] }

def pcMapC1 : String → Option ProposedCommit :=
  fun b => if b == "env/dev" then some pcDevC1 else none

/-- Scenario S: two environments dev → test; dev's active check succeeds on
the dev active hydrated sha, test's active check is pending on the test
active hydrated sha, test has no proposed checks, the dev active dry sha
equals the test proposed dry sha and dev's commit time is newer. -/
def envDevS : Environment :=
  { branch := "dev", autoMerge := none,
    activeCommitStatuses := [{ key := "health" }], proposedCommitStatuses := [] }

def envTestS : Environment :=
  { branch := "test", autoMerge := none,
    activeCommitStatuses := [{ key := "health" }], proposedCommitStatuses := [] }

def pcDevS : ProposedCommit :=
  { name := "pc-dev"
    status :=
      { active := { dry := { sha := "D2", commitTime := 100 },
                    hydrated := { sha := "HDEV", commitTime := 100 } }
        proposed := { dry := { sha := "D2", commitTime := 100 },
                      hydrated := { sha := "HDEVN", commitTime := 100 } } } }

def pcTestS : ProposedCommit :=
  { name := "pc-test"
    status :=
      { active := { dry := { sha := "D1", commitTime := 50 },
                    hydrated := { sha := "HTEST", commitTime := 50 } }
        proposed := { dry := { sha := "D2", commitTime := 100 },
                      hydrated := { sha := "HTESTN", commitTime := 100 } } } }

def psS : PromotionStrategy :=
  { name := "ps"
    spec := { environments := [envDevS, envTestS], activeCommitStatuses := [],
              proposedCommitStatuses := [] }
    statusEnvironments := [] }

def pcMapS : String → Option ProposedCommit :=
  fun b => if b == "dev" then some pcDevS else if b == "test" then some pcTestS else none

def csDevS : CommitStatusRec :=
  { name := "cs-dev"
    labels := [(commitStatusLabel, "health")]
    annotations := []
    spec := { sha := "HDEV", name := "health", description := "", state := "success",
              url := "", owner := "o", repoName := "r" }
    statusState := "success" }

def csTestS : CommitStatusRec :=
  { name := "cs-test"
    labels := [(commitStatusLabel, "health")]
    annotations := []
    spec := { sha := "HTEST", name := "health", description := "", state := "pending",
              url := "", owner := "o", repoName := "r" }
    statusState := "pending" }

def storeS : List CommitStatusRec := [csDevS, csTestS]

def prTestS : PullRequest :=
  { name := "pr-test"
    labels := [(promotionStrategyLabel, "ps"), (proposedCommitLabel, "pc-test"),
               (environmentLabel, "test")]
    specState := "open"
    statusState := "open"
    generation := 1
    observedGeneration := 1
    deletionTimestampIsZero := true
    finalizers := [] }

def prStoreS : List PullRequest := [prTestS]

def dummyOutcomeS : PromotionReconcileOutcome :=
  { ps := psS, copyActions := [], mergedPRs := [], prStore := [],
    result := { requeue := true, requeueAfterSeconds := 10 } }

def outS : PromotionReconcileOutcome :=
  extractOutcome (reconcilePromotionStrategy storeS prStoreS psS pcMapS) dummyOutcomeS

/-- Scenario T: as S but dev's active check is pending, so the previous
environment's rollup is not success. -/
def csDevT : CommitStatusRec :=
  { name := "cs-dev"
    labels := [(commitStatusLabel, "health")]
    annotations := []
    spec := { sha := "HDEV", name := "health", description := "", state := "pending",
              url := "", owner := "o", repoName := "r" }
    statusState := "pending" }

def storeT : List CommitStatusRec := [csDevT, csTestS]

def outT : PromotionReconcileOutcome :=
  extractOutcome (reconcilePromotionStrategy storeT prStoreS psS pcMapS) dummyOutcomeS

/-- C4 counterexample scenario: one environment with no active keys and one
proposed key whose only matching status is a failure. -/
def envC4 : Environment :=
  { branch := "qa", autoMerge := some false, activeCommitStatuses := [],
    proposedCommitStatuses := [{ key := "scan" }] }

def pcC4 : ProposedCommit :=
  { name := "pc-qa"
    status :=
      { active := { dry := { sha := "D1", commitTime := 10 },
                    hydrated := { sha := "HQA", commitTime := 10 } }
        proposed := { dry := { sha := "D2", commitTime := 20 },
                      hydrated := { sha := "HQAN", commitTime := 20 } } } }

def csScanC4 : CommitStatusRec :=
  { name := "cs-scan"
    labels := [(commitStatusLabel, "scan")]
    annotations := []
    spec := { sha := "HQAN", name := "scan", description := "", state := "failure",
              url := "", owner := "o", repoName := "r" }
    statusState := "failure" }

def storeC4 : List CommitStatusRec := [csScanC4]

def psC4 : PromotionStrategy :=
  { name := "ps"
    spec := { environments := [envC4], activeCommitStatuses := [],
              proposedCommitStatuses := [] }
    statusEnvironments := [] }

def pcMapC4 : String → Option ProposedCommit :=
  fun b => if b == "qa" then some pcC4 else none

/-- C4 witness scenario: an active key whose match is pending and a proposed
key whose match exists, so the proposed rollup gets overridden from the
ACTIVE collected list. -/
def envC4w : Environment :=
  { branch := "qa", autoMerge := some false,
    activeCommitStatuses := [{ key := "health" }],
    proposedCommitStatuses := [{ key := "scan" }] }

def csHealthC4w : CommitStatusRec :=
  { name := "cs-health"
    labels := [(commitStatusLabel, "health")]
    annotations := []
    spec := { sha := "HQA", name := "health", description := "", state := "pending",
              url := "", owner := "o", repoName := "r" }
    statusState := "pending" }

def storeC4w : List CommitStatusRec := [csHealthC4w, csScanC4]

def psC4w : PromotionStrategy :=
  { name := "ps"
    spec := { environments := [envC4w], activeCommitStatuses := [],
              proposedCommitStatuses := [] }
    statusEnvironments := [] }

def psC4wResult : PromotionStrategy :=
  match calculateStatus storeC4w psC4w
      (fun b => if b == envC4w.branch then some pcC4 else none) with
  | Except.ok p => p
  | Except.error _ => psC4w

/-- C5 scenario: one key matching two plain statuses on the source sha, with
no pre-existing proposed copies. -/
def cs1C5 : CommitStatusRec :=
  { name := "a"
    labels := [(commitStatusLabel, "k")]
    annotations := []
    spec := { sha := "F", name := "an", description := "", state := "success",
              url := "", owner := "o", repoName := "r" }
    statusState := "success" }

def cs2C5 : CommitStatusRec :=
  { name := "b"
    labels := [(commitStatusLabel, "k")]
    annotations := []
    spec := { sha := "F", name := "bn", description := "", state := "success",
              url := "", owner := "o", repoName := "r" }
    statusState := "success" }

def selC5 : List CommitStatusSelector := [{ key := "k" }]

def storeC5 : List CommitStatusRec := [cs1C5, cs2C5]

/-- C5 witness scenario: both proposed copies already exist. -/
def copy1C5 : CommitStatusRec :=
  { name := "proposed-a"
    labels := [(commitStatusCopyLabel, "true")]
    annotations := []
    spec := { sha := "T0", name := "dev - an", description := "", state := "success",
              url := "", owner := "o", repoName := "r" }
    statusState := "success" }

def copy2C5 : CommitStatusRec :=
  { name := "proposed-b"
    labels := [(commitStatusCopyLabel, "true")]
    annotations := []
    spec := { sha := "T0", name := "dev - bn", description := "", state := "success",
              url := "", owner := "o", repoName := "r" }
    statusState := "success" }

def storeC5w : List CommitStatusRec := [cs1C5, cs2C5, copy1C5, copy2C5]

/-- The existing copy a matching status is updated into. -/
def findCopy (store : List CommitStatusRec) (cs : CommitStatusRec) : CommitStatusRec :=
  (store.find? (fun c => c.name == "proposed-" ++ cs.name)).getD cs

/-- C6 witness: the empty strategy. -/
def psE : PromotionStrategy :=
  { name := "p"
    spec := { environments := [], activeCommitStatuses := [], proposedCommitStatuses := [] }
    statusEnvironments := [] }

def outE : PromotionReconcileOutcome :=
  { ps := psE, copyActions := [], mergedPRs := [], prStore := [],
    result := { requeue := true, requeueAfterSeconds := 10 } }

/-- C7 witness: an open PR whose provider PR vanished. -/
def prW : PullRequest :=
  { name := "pr"
    labels := []
    specState := "open"
    statusState := "open"
    generation := 2
    observedGeneration := 1
    deletionTimestampIsZero := true
    finalizers := ["pullrequest.promoter.argoporoj.io/finalizer"]
    }

def oracleW : PROracle :=
  { findOpen := some false, createOk := true, mergeOk := true, closeOk := true,
    updateOk := true, statusUpdateOk := true, finalizerUpdateOk := true,
    deleteResult := DeleteOutcome.notFound, createdId := "1" }

/-! ### Lemmas about the sanitizer -/

theorem sanitize_eq_nil_iff (l : List Char) : sanitize l = [] ↔ l = [] := by
  cases l with
  | nil => simp [sanitize, sanitizeAux]
  | cons c cs =>
    simp only [sanitize, sanitizeAux]
    by_cases hc : isAlnum c <;> simp [hc]

theorem sanitizeAux_chars (b : Bool) (l : List Char) :
    ∀ c ∈ sanitizeAux b l, isAlnum c = true ∨ c = '-' := by
  induction l generalizing b with
  | nil => intro c hc; simp [sanitizeAux] at hc
  | cons x xs ih =>
    intro c hc
    simp only [sanitizeAux] at hc
    by_cases hx : isAlnum x
    · simp [hx] at hc
      rcases hc with h | h
      · subst h; exact Or.inl hx
      · exact ih false c h
    · by_cases hb : b
      · simp [hx, hb] at hc
        exact ih true c hc
      · simp [hx, hb] at hc
        rcases hc with h | h
        · subst h; exact Or.inr rfl
        · exact ih true c h

/-- After the hyphen of a run has been emitted the next emitted character is
alphanumeric, so the sanitizer never emits two hyphens in a row. -/
theorem sanitizeAux_head_inRun (l : List Char) :
    ∀ c, (sanitizeAux true l).head? = some c → isAlnum c = true := by
  induction l with
  | nil => intro c hc; simp [sanitizeAux] at hc
  | cons x xs ih =>
    intro c hc
    simp only [sanitizeAux] at hc
    by_cases hx : isAlnum x
    · simp [hx] at hc
      subst hc; exact hx
    · simp [hx] at hc
      exact ih c hc

theorem sanitizeAux_noDoubleHyphen (b : Bool) (l : List Char) :
    noDoubleHyphen (sanitizeAux b l) = true := by
  induction l generalizing b with
  | nil => simp [sanitizeAux, noDoubleHyphen]
  | cons x xs ih =>
    simp only [sanitizeAux]
    by_cases hx : isAlnum x
    · simp only [hx, if_true]
      cases hs : sanitizeAux false xs with
      | nil => simp [noDoubleHyphen]
      | cons y ys =>
        have := ih false
        rw [hs] at this
        simp [noDoubleHyphen, this]
        left
        intro hxh
        subst hxh
        simp [isAlnum] at hx
    · by_cases hb : b
      · simp only [hx, hb, if_false, if_true]
        exact ih true
      · simp only [hx, hb, if_false]
        cases hs : sanitizeAux true xs with
        | nil => simp [noDoubleHyphen]
        | cons y ys =>
          have hh := sanitizeAux_head_inRun xs y (by rw [hs]; rfl)
          have := ih true
          rw [hs] at this
          simp [noDoubleHyphen, this]
          intro hyh
          subst hyh
          simp [isAlnum] at hh

theorem noDoubleHyphen_drop (l : List Char) (n : Nat)
    (h : noDoubleHyphen l = true) : noDoubleHyphen (l.drop n) = true := by
  induction l generalizing n with
  | nil => simp [List.drop, noDoubleHyphen]
  | cons x xs ih =>
    cases n with
    | zero => simpa using h
    | succ m =>
      simp only [List.drop]
      apply ih
      cases xs with
      | nil => simp [noDoubleHyphen]
      | cons y ys =>
        simp [noDoubleHyphen] at h
        exact h.2

/-! ### Lemmas about the truncation helpers -/

theorem truncateString_eq_take (l : List Char) (n : Nat) :
    truncateString l (255 - (n : Int) - 1) = l.take (255 - n - 1) := by
  unfold truncateString
  split
  · have : 255 - n - 1 = 0 := by omega
    rw [this]
    simp
  · congr 1
    omega

theorem truncateStringFromBeginning_length (l : List Char) (k : Int) :
    (truncateStringFromBeginning l k).length ≤ k.toNat := by
  unfold truncateStringFromBeginning
  split
  · exact Nat.zero_le _
  · split
    · omega
    · simp only [List.length_drop]
      omega

theorem truncateStringFromBeginning_mem (l : List Char) (k : Int) (c : Char)
    (h : c ∈ truncateStringFromBeginning l k) : c ∈ l := by
  unfold truncateStringFromBeginning at h
  split at h
  · simp at h
  · split at h
    · exact h
    · exact List.mem_of_mem_drop h

theorem truncateStringFromBeginning_noDoubleHyphen (l : List Char) (k : Int)
    (h : noDoubleHyphen l = true) :
    noDoubleHyphen (truncateStringFromBeginning l k) = true := by
  unfold truncateStringFromBeginning
  split
  · simp [noDoubleHyphen]
  · split
    · exact h
    · exact noDoubleHyphen_drop l _ h

theorem stripLeadingHyphen_length (l : List Char) :
    (stripLeadingHyphen l).length ≤ l.length := by
  cases l with
  | nil => simp [stripLeadingHyphen]
  | cons c rest =>
    simp only [stripLeadingHyphen]
    split <;> simp

theorem stripLeadingHyphen_mem (l : List Char) (c : Char)
    (h : c ∈ stripLeadingHyphen l) : c ∈ l := by
  cases l with
  | nil => simpa [stripLeadingHyphen] using h
  | cons x rest =>
    simp only [stripLeadingHyphen] at h
    split at h
    · exact List.mem_cons_of_mem x h
    · exact h

theorem stripLeadingHyphen_head (l : List Char)
    (h : noDoubleHyphen l = true) :
    (stripLeadingHyphen l).head? ≠ some '-' := by
  cases l with
  | nil => simp [stripLeadingHyphen]
  | cons x rest =>
    simp only [stripLeadingHyphen]
    split
    · next hx =>
      subst hx
      cases rest with
      | nil => simp
      | cons y ys =>
        simp [noDoubleHyphen] at h
        simp
        exact fun hy => h.1 hy
    · next hx =>
      simp
      exact fun hy => hx hy

/-! ### Claim theorems for the name and label utilities -/

/-- C8.  For every input string whose sanitized form is non-empty,
KubeSafeUniqueName performs exactly the pipeline the specification words:
replace runs of non-alphanumeric characters by a hyphen, lowercase, compute
the 32-bit FNV-1a hash of that sanitized value rendered as minimal lowercase
hex, strip one trailing hyphen, append the hash after a hyphen, and truncate
to 255 - len(hash) - 1 characters, the truncation coming last. -/
theorem uniqueName_matches_spec (s : String)
    (h : sanitize s.data ≠ []) :
    kubeSafeUniqueName s = some (specUniqueName s) := by
  simp only [kubeSafeUniqueName, specUniqueName]
  have hne : (sanitize s.data).map asciiLower ≠ [] := by
    simpa using h
  cases hg : ((sanitize s.data).map asciiLower).getLast? with
  | none =>
    exact absurd (List.getLast?_eq_none_iff.mp hg) hne
  | some last =>
    by_cases hl : last = '-' <;> simp [hl, truncateString_eq_take]

/-- C9.  KubeSafeLabel always returns a string of length at most 63, whose
characters all lie in [A-Za-z0-9._-], with no leading hyphen; the empty
input returns the empty string. -/
theorem kubeSafeLabel_is_safe :
    (∀ s : String, (kubeSafeLabel s).length ≤ 63 ∧
        (kubeSafeLabel s).data.all labelChar = true ∧
        (kubeSafeLabel s).data.head? ≠ some '-') ∧
    kubeSafeLabel "" = "" := by
  constructor
  · intro s
    by_cases hs : s = ""
    · subst hs
      refine ⟨by simp [kubeSafeLabel], by simp [kubeSafeLabel], by simp [kubeSafeLabel]⟩
    · simp only [kubeSafeLabel, if_neg hs]
      refine ⟨?_, ?_, ?_⟩
      · show (stripLeadingHyphen (truncateStringFromBeginning (sanitize s.data) 63)).length ≤ 63
        calc (stripLeadingHyphen (truncateStringFromBeginning (sanitize s.data) 63)).length
            ≤ (truncateStringFromBeginning (sanitize s.data) 63).length :=
              stripLeadingHyphen_length _
          _ ≤ (63 : Int).toNat := truncateStringFromBeginning_length _ _
          _ = 63 := rfl
      · show (stripLeadingHyphen (truncateStringFromBeginning (sanitize s.data) 63)).all
            labelChar = true
        rw [List.all_eq_true]
        intro c hc
        have h1 := stripLeadingHyphen_mem _ c hc
        have h2 := truncateStringFromBeginning_mem _ _ _ h1
        rcases sanitizeAux_chars false s.data c h2 with ha | ha
        · simp [labelChar, ha]
        · simp [labelChar, ha]
      · show (stripLeadingHyphen (truncateStringFromBeginning (sanitize s.data) 63)).head?
            ≠ some '-'
        exact stripLeadingHyphen_head _
          (truncateStringFromBeginning_noDoubleHyphen _ _
            (sanitizeAux_noDoubleHyphen false s.data))
  · simp [kubeSafeLabel]

/-- C10.  KubeSafeUniqueName indexes the sanitized string at its last
position without an emptiness guard.  The sanitized string is empty exactly
for the empty input, where the Go code panics (modelled by none); for every
non-empty input the access is in bounds and the function returns a value. -/
theorem uniqueName_total_iff_nonempty (s : String) :
    (kubeSafeUniqueName s).isSome = true ↔ s ≠ "" := by
  simp only [kubeSafeUniqueName]
  cases hg : ((sanitize s.data).map asciiLower).getLast? with
  | none =>
    have h0 : sanitize s.data = [] := by
      have := List.getLast?_eq_none_iff.mp hg
      simpa using this
    have hd : s.data = [] := (sanitize_eq_nil_iff _).mp h0
    have hs : s = "" := by
      cases s with
      | mk d =>
        simp only [String.data] at hd
        subst hd
        rfl
    simp [hs]
  | some last =>
    have h0 : sanitize s.data ≠ [] := by
      intro hcon
      rw [hcon] at hg
      simp at hg
    have hd : s.data ≠ [] := fun hcon => h0 ((sanitize_eq_nil_iff _).mpr hcon)
    have hs : s ≠ "" := by
      intro hcon
      subst hcon
      exact hd rfl
    simp [hg, hs]

/-- Witness for C8 at the concrete input "Argo CD!". -/
theorem uniqueName_matches_spec_witness :
    sanitize "Argo CD!".data ≠ [] ∧
      kubeSafeUniqueName "Argo CD!" = some (specUniqueName "Argo CD!") :=
  ⟨by decide, uniqueName_matches_spec "Argo CD!" (by decide)⟩

/-! ### Alignment lemmas: the status environment list stays a prefix of the
spec branch order through calculateStatus -/

theorem upsert_branches (envs : List EnvironmentStatus) (entry : EnvironmentStatus) :
    (upsertEnvironmentStatus envs entry).map EnvironmentStatus.branch =
      if entry.branch ∈ envs.map EnvironmentStatus.branch then
        envs.map EnvironmentStatus.branch
      else envs.map EnvironmentStatus.branch ++ [entry.branch] := by
  induction envs with
  | nil => simp [upsertEnvironmentStatus]
  | cons e rest ih =>
    by_cases hb : e.branch = entry.branch
    · simp [upsertEnvironmentStatus, hb]
    · have hbeq : (e.branch == entry.branch) = false := by
        simp [hb]
      by_cases hm : entry.branch ∈ rest.map EnvironmentStatus.branch
      · simp [upsertEnvironmentStatus, hbeq, ih, hm]
      · have hne : ¬(entry.branch = e.branch) := fun hc => hb hc.symm
        simp [upsertEnvironmentStatus, hbeq, ih, hm, hne]

theorem map_branch_set (l : List EnvironmentStatus) (n : Nat) (e : EnvironmentStatus)
    (h : e.branch = (l.getD n emptyEnvironmentStatus).branch) :
    (l.set n e).map EnvironmentStatus.branch = l.map EnvironmentStatus.branch := by
  induction l generalizing n with
  | nil => simp
  | cons x rest ih =>
    cases n with
    | zero =>
      simp only [List.getD, List.get?_cons_zero] at h
      simp [List.set, h]
    | succ m =>
      simp only [List.getD] at h
      simp only [List.set, List.map]
      rw [ih]
      exact h

theorem rollupEnvEntry_branch (sp : PromotionStrategySpec) (store : List CommitStatusRec)
    (environment : Environment) (pc : ProposedCommit) (i : Int) (entry : EnvironmentStatus) :
    (rollupEnvEntry sp store environment pc i entry).branch = entry.branch := by
  simp only [rollupEnvEntry]
  split <;> split <;> rfl

theorem calculateStatusEnv_spec (store : List CommitStatusRec) (ps : PromotionStrategy)
    (environment : Environment) (pc : ProposedCommit) :
    (calculateStatusEnv store ps environment pc).spec = ps.spec := rfl

theorem calculateStatusEnv_name (store : List CommitStatusRec) (ps : PromotionStrategy)
    (environment : Environment) (pc : ProposedCommit) :
    (calculateStatusEnv store ps environment pc).name = ps.name := rfl

theorem deadGuard_false (envs : List EnvironmentStatus) (i : Int) :
    (decide ((envs.length : Int) ≤ i) &&
      decide ((getIdx envs i).lastHealthyDryShas.length > 10)) = false := by
  by_cases h : (envs.length : Int) ≤ i
  · have hi : ¬ i < 0 := by omega
    have hlen : envs.length ≤ i.toNat := by omega
    have hnone : envs[i.toNat]? = none := List.getElem?_eq_none hlen
    have : getIdx envs i = emptyEnvironmentStatus := by
      simp [getIdx, hi, List.getD, hnone]
    simp [this, emptyEnvironmentStatus]
  · simp [h]

theorem setIdx_rollup_branches (spc : PromotionStrategySpec) (store : List CommitStatusRec)
    (environment : Environment) (pc : ProposedCommit) (envs1 : List EnvironmentStatus)
    (i : Int) :
    (setIdx envs1 i (rollupEnvEntry spc store environment pc i
        (getIdx envs1 i))).map EnvironmentStatus.branch =
      envs1.map EnvironmentStatus.branch := by
  unfold setIdx
  split
  · rfl
  · next hneg =>
    apply map_branch_set
    rw [rollupEnvEntry_branch]
    simp [getIdx, hneg]

theorem calculateStatusEnv_branches (store : List CommitStatusRec) (ps : PromotionStrategy)
    (environment : Environment) (pc : ProposedCommit) :
    (calculateStatusEnv store ps environment pc).statusEnvironments.map
        EnvironmentStatus.branch =
      if environment.branch ∈ ps.statusEnvironments.map EnvironmentStatus.branch then
        ps.statusEnvironments.map EnvironmentStatus.branch
      else ps.statusEnvironments.map EnvironmentStatus.branch ++ [environment.branch] := by
  simp only [calculateStatusEnv, deadGuard_false, Bool.false_eq_true, if_false]
  rw [setIdx_rollup_branches, upsert_branches,
    show (freshEnvironmentStatus environment pc).branch = environment.branch from rfl]

/-! ### The ordered status list equals the raw status list when the status
branches are a prefix of the spec branches -/

theorem filter_branch_nil (b : String) (l : List EnvironmentStatus)
    (h : b ∉ l.map EnvironmentStatus.branch) :
    l.filter (fun st => b == st.branch) = [] := by
  induction l with
  | nil => rfl
  | cons e rest ih =>
    simp only [List.map_cons, List.mem_cons, not_or] at h
    have hne : (b == e.branch) = false := by
      simp [h.1]
    simp only [List.filter, hne]
    exact ih h.2

theorem flatMap_filter_aligned :
    ∀ (specEnvs : List Environment) (envs : List EnvironmentStatus),
      (specEnvs.map Environment.branch).Nodup →
      envs.map EnvironmentStatus.branch =
        (specEnvs.map Environment.branch).take envs.length →
      specEnvs.flatMap (fun se => envs.filter (fun st => se.branch == st.branch)) = envs := by
  intro specEnvs
  induction specEnvs with
  | nil =>
    intro envs hnd hpre
    simp only [List.map_nil, List.take_nil] at hpre
    have : envs = [] := by
      cases envs with
      | nil => rfl
      | cons x xs => simp at hpre
    subst this
    simp
  | cons se rest ih =>
    intro envs hnd hpre
    cases envs with
    | nil =>
      simp
    | cons e0 envs' =>
      simp only [List.map_cons, List.length_cons, List.take_succ_cons, List.cons.injEq]
        at hpre
      obtain ⟨h0, hrest⟩ := hpre
      simp only [List.map_cons, List.nodup_cons] at hnd
      obtain ⟨hnot, hnd'⟩ := hnd
      have hnot' : se.branch ∉ envs'.map EnvironmentStatus.branch := by
        intro hc
        exact hnot (List.mem_of_mem_take (hrest ▸ hc))
      rw [List.flatMap_cons]
      have hhead : (e0 :: envs').filter (fun st => se.branch == st.branch) = [e0] := by
        have hbeq : (se.branch == e0.branch) = true := by
          simp [h0]
        simp only [List.filter, hbeq]
        rw [filter_branch_nil se.branch envs' hnot']
      have htail :
          rest.flatMap (fun se' => (e0 :: envs').filter (fun st => se'.branch == st.branch)) =
            rest.flatMap (fun se' => envs'.filter (fun st => se'.branch == st.branch)) := by
        apply List.flatMap_congr
        intro se' hm
        have hne : (se'.branch == e0.branch) = false := by
          have h1 : se'.branch ∈ rest.map Environment.branch := List.mem_map_of_mem _ hm
          have : ¬ se'.branch = e0.branch := by
            intro hc
            rw [h0] at hc
            exact hnot (hc ▸ h1)
          simp [this]
        simp only [List.filter, hne]
      rw [hhead, htail, ih envs' hnd' hrest]
      rfl

theorem ordered_eq_raw (ps : PromotionStrategy)
    (hnd : (ps.spec.environments.map Environment.branch).Nodup)
    (hpre : ps.statusEnvironments.map EnvironmentStatus.branch =
      (ps.spec.environments.map Environment.branch).take ps.statusEnvironments.length) :
    getEnvironmentsFromStatusInOrder ps = ps.statusEnvironments :=
  flatMap_filter_aligned ps.spec.environments ps.statusEnvironments hnd hpre

/-! ### The by-branch lookups at a unique branch -/

theorem findEnvAux_at :
    ∀ (envs : List EnvironmentStatus) (j i : Nat) (ej : EnvironmentStatus),
      (envs.map EnvironmentStatus.branch).Nodup →
      envs[j]? = some ej →
      findEnvAux ej.branch i envs = some (i + j, ej) := by
  intro envs
  induction envs with
  | nil => intro j i ej _ hj; simp at hj
  | cons e rest ih =>
    intro j i ej hnd hj
    simp only [List.map_cons, List.nodup_cons] at hnd
    cases j with
    | zero =>
      simp only [List.getElem?_cons_zero, Option.some.injEq] at hj
      subst hj
      simp [findEnvAux]
    | succ k =>
      simp only [List.getElem?_cons_succ] at hj
      have hmem : ej ∈ rest := List.getElem?_mem hj
      have hne : (e.branch == ej.branch) = false := by
        have h1 : ej.branch ∈ rest.map EnvironmentStatus.branch :=
          List.mem_map_of_mem _ hmem
        have : ¬ e.branch = ej.branch := fun hc => hnd.1 (hc ▸ h1)
        simp [this]
      simp only [findEnvAux, hne, Bool.false_eq_true, if_false]
      have harith : i + 1 + k = i + (k + 1) := by omega
      rw [ih k (i + 1) ej hnd.2 hj, harith]

theorem findPrevAux_notmem (b : String) :
    ∀ (envs : List EnvironmentStatus) (prev? : Option EnvironmentStatus) (i : Nat),
      b ∉ envs.map EnvironmentStatus.branch →
      findPrevAux b prev? i envs = none := by
  intro envs
  induction envs with
  | nil => intro prev? i _; rfl
  | cons e rest ih =>
    intro prev? i h
    simp only [List.map_cons, List.mem_cons, not_or] at h
    have hne : (e.branch == b) = false := by
      have : ¬ e.branch = b := fun hc => h.1 hc.symm
      simp [this]
    simp only [findPrevAux, hne, Bool.false_eq_true, if_false]
    exact ih (some e) (i + 1) h.2

theorem findPrevAux_at :
    ∀ (envs : List EnvironmentStatus) (j i : Nat) (prev? : Option EnvironmentStatus)
      (ej : EnvironmentStatus),
      (envs.map EnvironmentStatus.branch).Nodup →
      envs[j]? = some ej →
      findPrevAux ej.branch prev? i envs =
        if j = 0 then
          (match prev? with
           | some p => some (i + 1, p)
           | none => none)
        else some (i + j + 1, envs[j - 1]?.getD emptyEnvironmentStatus) := by
  intro envs
  induction envs with
  | nil => intro j i prev? ej _ hj; simp at hj
  | cons e rest ih =>
    intro j i prev? ej hnd hj
    simp only [List.map_cons, List.nodup_cons] at hnd
    cases j with
    | zero =>
      simp only [List.getElem?_cons_zero, Option.some.injEq] at hj
      subst hj
      have hbeq : (e.branch == e.branch) = true := by simp
      simp only [findPrevAux, hbeq, if_true, if_pos rfl]
      cases prev? with
      | some p => rfl
      | none =>
        exact findPrevAux_notmem e.branch rest (some e) (i + 1) hnd.1
    | succ k =>
      simp only [List.getElem?_cons_succ] at hj
      have hmem : ej ∈ rest := List.getElem?_mem hj
      have hne : (e.branch == ej.branch) = false := by
        have h1 : ej.branch ∈ rest.map EnvironmentStatus.branch :=
          List.mem_map_of_mem _ hmem
        have : ¬ e.branch = ej.branch := fun hc => hnd.1 (hc ▸ h1)
        simp [this]
      simp only [findPrevAux, hne, Bool.false_eq_true, if_false]
      rw [ih k (i + 1) (some e) ej hnd.2 hj]
      cases k with
      | zero =>
        simp
      | succ m =>
        have h1 : ¬ (m + 1 = 0) := by omega
        have h2 : ¬ (m + 1 + 1 = 0) := by omega
        simp only [h1, h2, if_false]
        have harith : i + 1 + (m + 1) + 1 = i + (m + 1 + 1) + 1 := by omega
        rw [harith]
        simp only [Nat.add_sub_cancel, List.getElem?_cons_succ]

/-! ### calculateStatus keeps the status environments aligned with the spec -/

theorem foldlM_calc_aligned (store : List CommitStatusRec)
    (pcMap : String → Option ProposedCommit) :
    ∀ (toGo : List Environment) (acc ps1 : PromotionStrategy) (j k : Nat),
      (acc.spec.environments.map Environment.branch).Nodup →
      acc.spec.environments.drop j = toGo →
      acc.statusEnvironments.map EnvironmentStatus.branch =
        (acc.spec.environments.map Environment.branch).take k →
      j ≤ k → k ≤ acc.spec.environments.length →
      toGo.foldlM (calcStep store pcMap) acc = Except.ok ps1 →
      ps1.spec = acc.spec ∧ ps1.name = acc.name ∧
        ps1.statusEnvironments.map EnvironmentStatus.branch =
          acc.spec.environments.map Environment.branch := by
  intro toGo
  induction toGo with
  | nil =>
    intro acc ps1 j k hnd hdrop hpre hjk hkn hfold
    simp only [List.foldlM_nil] at hfold
    have hacc : acc = ps1 := by
      have : (Except.ok acc : Except String PromotionStrategy) = Except.ok ps1 := hfold
      exact Except.ok.inj this
    subst hacc
    have hn : acc.spec.environments.length ≤ j := List.drop_eq_nil_iff.mp hdrop
    have hk : k = acc.spec.environments.length := by omega
    refine ⟨rfl, rfl, ?_⟩
    rw [hpre, hk, ← List.length_map acc.spec.environments Environment.branch]
    exact List.take_length _
  | cons env toGo' ih =>
    intro acc ps1 j k hnd hdrop hpre hjk hkn hfold
    rw [List.foldlM_cons] at hfold
    cases hpc : pcMap env.branch with
    | none =>
      have hstep : calcStep store pcMap acc env =
          Except.error ("ProposedCommit not found for branch " ++ env.branch) := by
        unfold calcStep
        rw [hpc]
      rw [hstep] at hfold
      exact Except.noConfusion hfold
    | some pc =>
      have hstep : calcStep store pcMap acc env =
          Except.ok (calculateStatusEnv store acc env pc) := by
        unfold calcStep
        rw [hpc]
      rw [hstep] at hfold
      have hfold' : toGo'.foldlM (calcStep store pcMap)
          (calculateStatusEnv store acc env pc) = Except.ok ps1 := hfold
      have hspec : (calculateStatusEnv store acc env pc).spec = acc.spec :=
        calculateStatusEnv_spec store acc env pc
      have hjn : j < acc.spec.environments.length := by
        have hlen := congrArg List.length hdrop
        simp only [List.length_drop, List.length_cons] at hlen
        omega
      have hdropB : (acc.spec.environments.map Environment.branch).drop j =
          env.branch :: toGo'.map Environment.branch := by
        rw [← List.map_drop, hdrop]
        rfl
      have hdrop' : acc.spec.environments.drop (j + 1) = toGo' := by
        have h2 := List.drop_drop 1 j acc.spec.environments
        rw [hdrop] at h2
        simpa using h2.symm
      by_cases hlt : j < k
      · -- env.branch already occurs in the take-k prefix
        have hmemtake : env.branch ∈
            (acc.spec.environments.map Environment.branch).take k := by
          have htd := List.take_drop j (k - j) (acc.spec.environments.map Environment.branch)
          rw [show j + (k - j) = k by omega] at htd
          have hmem1 : env.branch ∈
              ((acc.spec.environments.map Environment.branch).drop j).take (k - j) := by
            rw [hdropB]
            cases hkj : k - j with
            | zero => omega
            | succ m => simp
          rw [htd] at hmem1
          exact List.drop_subset _ _ hmem1
        have hpre' : (calculateStatusEnv store acc env pc).statusEnvironments.map
            EnvironmentStatus.branch =
            ((calculateStatusEnv store acc env pc).spec.environments.map
              Environment.branch).take k := by
          rw [calculateStatusEnv_branches, hpre, hspec]
          rw [if_pos (hpre ▸ hmemtake)]
        have hres := ih (calculateStatusEnv store acc env pc) ps1 (j + 1) k
          (by rw [hspec]; exact hnd)
          (by rw [hspec]; exact hdrop')
          hpre'
          (by omega)
          (by rw [hspec]; exact hkn)
          hfold'
        rw [hspec] at hres
        rw [calculateStatusEnv_name] at hres
        exact hres
      · -- j = k: the branch is appended, extending the prefix by one
        have hjeq : j = k := by omega
        subst hjeq
        have hjB : j < (acc.spec.environments.map Environment.branch).length := by
          simpa using hjn
        have hBj : (acc.spec.environments.map Environment.branch).drop j =
            (acc.spec.environments.map Environment.branch)[j] ::
              (acc.spec.environments.map Environment.branch).drop (j + 1) :=
          List.drop_eq_getElem_cons hjB
        have hBjval : (acc.spec.environments.map Environment.branch)[j] = env.branch := by
          rw [hBj] at hdropB
          injection hdropB
        have hnotmem : env.branch ∉
            (acc.spec.environments.map Environment.branch).take j := by
          intro hmem
          have hsplit := List.take_append_drop j (acc.spec.environments.map Environment.branch)
          have hndB : ((acc.spec.environments.map Environment.branch).take j ++
              (acc.spec.environments.map Environment.branch).drop j).Nodup := by
            rw [hsplit]; exact hnd
          have hdisj := List.disjoint_of_nodup_append hndB
          have hmemdrop : env.branch ∈
              (acc.spec.environments.map Environment.branch).drop j := by
            rw [hdropB]; exact List.mem_cons_self _ _
          exact hdisj hmem hmemdrop
        have hpre' : (calculateStatusEnv store acc env pc).statusEnvironments.map
            EnvironmentStatus.branch =
            ((calculateStatusEnv store acc env pc).spec.environments.map
              Environment.branch).take (j + 1) := by
          rw [calculateStatusEnv_branches, hpre, hspec]
          rw [if_neg (hpre ▸ hnotmem)]
          rw [List.take_succ]
          have : (acc.spec.environments.map Environment.branch)[j]? = some env.branch := by
            rw [List.getElem?_eq_getElem hjB, hBjval]
          rw [this]
          rfl
        have hres := ih (calculateStatusEnv store acc env pc) ps1 (j + 1) (j + 1)
          (by rw [hspec]; exact hnd)
          (by rw [hspec]; exact hdrop')
          hpre'
          (by omega)
          (by rw [hspec]; omega)
          hfold'
        rw [hspec] at hres
        rw [calculateStatusEnv_name] at hres
        exact hres

/-- calculateStatus on a strategy whose status branches are a prefix of the
spec branches (fresh strategies have the empty prefix, converged ones the
whole list) yields exactly one status entry per spec environment, in spec
order. -/
theorem calculateStatus_aligned (store : List CommitStatusRec)
    (pcMap : String → Option ProposedCommit) (ps0 ps1 : PromotionStrategy)
    (hnd : (ps0.spec.environments.map Environment.branch).Nodup)
    (hpre : ps0.statusEnvironments.map EnvironmentStatus.branch =
      (ps0.spec.environments.map Environment.branch).take ps0.statusEnvironments.length)
    (hcalc : calculateStatus store ps0 pcMap = Except.ok ps1) :
    ps1.spec = ps0.spec ∧ ps1.name = ps0.name ∧
      ps1.statusEnvironments.map EnvironmentStatus.branch =
        ps0.spec.environments.map Environment.branch := by
  have hlen : ps0.statusEnvironments.length ≤ ps0.spec.environments.length ∧
      ps0.statusEnvironments.map EnvironmentStatus.branch =
        (ps0.spec.environments.map Environment.branch).take
          (min ps0.statusEnvironments.length ps0.spec.environments.length) := by
    constructor
    · by_contra hgt
      push_neg at hgt
      have h1 := congrArg List.length hpre
      simp only [List.length_map, List.length_take] at h1
      omega
    · rw [hpre]
      congr 1
      have h1 := congrArg List.length hpre
      simp only [List.length_map, List.length_take] at h1
      omega
  exact foldlM_calc_aligned store pcMap ps0.spec.environments ps0 ps1 0
    ps0.statusEnvironments.length hnd rfl hpre (Nat.zero_le _) (by omega) hcalc

/-! ### A flipped PullRequest implies the gate held -/

theorem promoteEnvironment_flip (ps : PromotionStrategy) (store : List CommitStatusRec)
    (prStore : List PullRequest) (pcMap : String → Option ProposedCommit)
    (environment : Environment) (p : String × String)
    (h : (promoteEnvironment ps store prStore pcMap environment).2.2 = some p) :
    p.1 = environment.branch ∧ mergeGate ps pcMap environment = true := by
  simp only [promoteEnvironment] at h
  by_cases hg : mergeGate ps pcMap environment = true
  · simp only [hg, if_true] at h
    split at h
    · simp at h
    · split at h
      · simp only [Option.some.injEq] at h
        subst h
        exact ⟨rfl, hg⟩
      · simp at h
  · simp only [Bool.not_eq_true] at hg
    simp [hg] at h

theorem foldl_flips (ps : PromotionStrategy) (store : List CommitStatusRec)
    (pcMap : String → Option ProposedCommit) :
    ∀ (toGo : List Environment)
      (acc : List CSAction × List PullRequest × List (String × String)) (p : String × String),
      p ∈ (toGo.foldl
        (fun (acc : List CSAction × List PullRequest × List (String × String)) environment =>
          let step := promoteEnvironment ps store acc.2.1 pcMap environment
          (acc.1 ++ step.1, step.2.1, acc.2.2 ++ step.2.2.toList)) acc).2.2 →
      p ∈ acc.2.2 ∨ ∃ env ∈ toGo, p.1 = env.branch ∧ mergeGate ps pcMap env = true := by
  intro toGo
  induction toGo with
  | nil => intro acc p h; exact Or.inl h
  | cons env rest ih =>
    intro acc p h
    rw [List.foldl_cons] at h
    rcases ih _ p h with hmem | ⟨env1, hm, h1, h2⟩
    · simp only [List.mem_append] at hmem
      rcases hmem with h3 | h3
      · exact Or.inl h3
      · right
        refine ⟨env, List.mem_cons_self _ _, ?_⟩
        cases ho : (promoteEnvironment ps store acc.2.1 pcMap env).2.2 with
        | none => rw [ho] at h3; simp at h3
        | some q =>
          rw [ho] at h3
          simp only [Option.toList_some, List.mem_singleton] at h3
          subst h3
          exact promoteEnvironment_flip ps store acc.2.1 pcMap env p ho
    · exact Or.inr ⟨env1, List.mem_cons_of_mem _ hm, h1, h2⟩

theorem reconcile_flip_gate (store : List CommitStatusRec) (prStore : List PullRequest)
    (ps0 : PromotionStrategy) (pcMap : String → Option ProposedCommit)
    (out : PromotionReconcileOutcome) (p : String × String)
    (hout : reconcilePromotionStrategy store prStore ps0 pcMap = Except.ok out)
    (hp : p ∈ out.mergedPRs) :
    calculateStatus store ps0 pcMap = Except.ok out.ps ∧
      ∃ env ∈ out.ps.spec.environments,
        p.1 = env.branch ∧ mergeGate out.ps pcMap env = true := by
  unfold reconcilePromotionStrategy at hout
  cases hcalc : calculateStatus store ps0 pcMap with
  | error e =>
    rw [hcalc] at hout
    exact Except.noConfusion hout
  | ok ps =>
    rw [hcalc] at hout
    have hout' := Except.ok.inj hout
    have hps : out.ps = ps := by rw [← hout']
    have hmerged : out.mergedPRs =
        (ps.spec.environments.foldl
          (fun (acc : List CSAction × List PullRequest × List (String × String)) environment =>
            let step := promoteEnvironment ps store acc.2.1 pcMap environment
            (acc.1 ++ step.1, step.2.1, acc.2.2 ++ step.2.2.toList))
          ([], prStore, [])).2.2 := by
      rw [← hout']
    rw [hmerged] at hp
    rcases foldl_flips ps store pcMap ps.spec.environments ([], prStore, []) p hp with
      h | ⟨env, hm, h1, h2⟩
    · simp at h
    · exact ⟨by rw [hps], env, by rw [hps]; exact hm, h1, by rw [hps]; exact h2⟩

/-! ### Decomposition of the gate for a non-first environment -/

theorem mergeGate_decomp (ps : PromotionStrategy) (pcMap : String → Option ProposedCommit)
    (e : Environment) (j : Nat)
    (hnd : (ps.spec.environments.map Environment.branch).Nodup)
    (halign : ps.statusEnvironments.map EnvironmentStatus.branch =
      ps.spec.environments.map Environment.branch)
    (hj : ps.spec.environments[j]? = some e)
    (hj1 : 1 ≤ j)
    (hgate : mergeGate ps pcMap e = true) :
    (ps.statusEnvironments[j - 1]?.getD emptyEnvironmentStatus).active.commitStatus.state
        = "success" ∧
    (ps.statusEnvironments[j - 1]?.getD emptyEnvironmentStatus).active.dry.sha =
        ((pcMap e.branch).getD emptyProposedCommit).status.proposed.dry.sha ∧
    (ps.statusEnvironments[j]?.getD emptyEnvironmentStatus).active.dry.commitTime <
        (ps.statusEnvironments[j - 1]?.getD emptyEnvironmentStatus).active.dry.commitTime ∧
    (ps.statusEnvironments[j]?.getD emptyEnvironmentStatus).proposed.commitStatus.state
        = "success" ∧
    e.getAutoMerge = true := by
  have hndS : (ps.statusEnvironments.map EnvironmentStatus.branch).Nodup := by
    rw [halign]; exact hnd
  have hpre : ps.statusEnvironments.map EnvironmentStatus.branch =
      (ps.spec.environments.map Environment.branch).take ps.statusEnvironments.length := by
    rw [halign]
    have hlen : ps.statusEnvironments.length = ps.spec.environments.length := by
      have := congrArg List.length halign
      simpa using this
    rw [hlen, ← List.length_map ps.spec.environments Environment.branch,
      List.take_length _]
  have horder : getEnvironmentsFromStatusInOrder ps = ps.statusEnvironments :=
    ordered_eq_raw ps hnd hpre
  -- the status entry at index j carries the branch of e
  have hbj : (ps.statusEnvironments.map EnvironmentStatus.branch)[j]? = some e.branch := by
    rw [halign, List.getElem?_map, hj]
    rfl
  rw [List.getElem?_map] at hbj
  cases hej : ps.statusEnvironments[j]? with
  | none => rw [hej] at hbj; exact Option.noConfusion hbj
  | some ej =>
    rw [hej] at hbj
    have hejb : ej.branch = e.branch := by
      simpa using hbj
    have hfind : getEnvironmentStatusByBranch ps e.branch = some (j, ej) := by
      unfold getEnvironmentStatusByBranch
      rw [horder, ← hejb]
      have := findEnvAux_at ps.statusEnvironments j 0 ej hndS hej
      simpa using this
    have hprev : getPreviousEnvironmentStatusByBranch ps e.branch =
        some (j + 1, ps.statusEnvironments[j - 1]?.getD emptyEnvironmentStatus) := by
      unfold getPreviousEnvironmentStatusByBranch
      rw [horder, ← hejb]
      have := findPrevAux_at ps.statusEnvironments j 0 none ej hndS hej
      rw [this]
      have hj0 : ¬ (j = 0) := by omega
      simp [hj0]
    simp only [mergeGate, hfind, hprev] at hgate
    have hne0 : (((j : Int)) == 0) = false := by
      have : ¬ ((j : Int) = 0) := by
        intro hc
        omega
      simp [this]
    rw [hne0] at hgate
    simp only [Bool.false_or, Bool.and_eq_true, Option.map_some'] at hgate
    obtain ⟨⟨hA, hP⟩, hAuto⟩ := hgate
    simp only [Option.map_some', Bool.and_eq_true, beq_iff_eq, decide_eq_true_eq] at hA hP
    obtain ⟨⟨ha1, ha2⟩, ha3⟩ := hA
    refine ⟨ha1, ha2, ?_, ?_, hAuto⟩
    · simpa using ha3
    · simpa using hP

/-- Shared decomposition: a flip recorded for the branch of the spec
environment at index j ≥ 1 forces the gate, which forces the conditions on
the previous environment's rolled-up status. -/
theorem flip_decomp (store : List CommitStatusRec) (prStore : List PullRequest)
    (ps0 : PromotionStrategy) (pcMap : String → Option ProposedCommit)
    (out : PromotionReconcileOutcome) (j : Nat) (e : Environment) (prName : String)
    (hnd : (ps0.spec.environments.map Environment.branch).Nodup)
    (hpre : ps0.statusEnvironments.map EnvironmentStatus.branch =
      (ps0.spec.environments.map Environment.branch).take ps0.statusEnvironments.length)
    (hj : ps0.spec.environments[j]? = some e)
    (hj1 : 1 ≤ j)
    (hout : reconcilePromotionStrategy store prStore ps0 pcMap = Except.ok out)
    (hflip : (e.branch, prName) ∈ out.mergedPRs) :
    out.ps.spec = ps0.spec ∧
    out.ps.statusEnvironments.map EnvironmentStatus.branch =
      ps0.spec.environments.map Environment.branch ∧
    (out.ps.statusEnvironments[j - 1]?.getD emptyEnvironmentStatus).active.commitStatus.state
        = "success" ∧
    (out.ps.statusEnvironments[j - 1]?.getD emptyEnvironmentStatus).active.dry.sha =
      ((pcMap e.branch).getD emptyProposedCommit).status.proposed.dry.sha ∧
    (out.ps.statusEnvironments[j]?.getD emptyEnvironmentStatus).active.dry.commitTime <
      (out.ps.statusEnvironments[j - 1]?.getD emptyEnvironmentStatus).active.dry.commitTime ∧
    (out.ps.statusEnvironments[j]?.getD emptyEnvironmentStatus).proposed.commitStatus.state
        = "success" ∧
    e.getAutoMerge = true := by
  obtain ⟨hcalc, env, hm, h1, h2⟩ :=
    reconcile_flip_gate store prStore ps0 pcMap out (e.branch, prName) hout hflip
  obtain ⟨hspec, hname, halign⟩ :=
    calculateStatus_aligned store pcMap ps0 out.ps hnd hpre hcalc
  have he_mem : e ∈ ps0.spec.environments := List.getElem?_mem hj
  have hmem1 : env ∈ ps0.spec.environments := by
    rw [hspec] at hm
    exact hm
  have henv : env = e :=
    List.inj_on_of_nodup_map hnd hmem1 he_mem (by exact h1.symm)
  subst henv
  have hj2 : out.ps.spec.environments[j]? = some env := by
    rw [hspec]
    exact hj
  have hd := mergeGate_decomp out.ps pcMap env j
    (by rw [hspec]; exact hnd)
    (by rw [hspec]; exact halign)
    hj2 hj1 h2
  exact ⟨hspec, halign, hd.1, hd.2.1, hd.2.2.1, hd.2.2.2.1, hd.2.2.2.2⟩

/-! ### The bubbling fold's collected list does not depend on the rollup
accumulator -/

theorem bubbleUpKeys_go_snd (store : List CommitStatusRec) (sha : String) :
    ∀ (keys : List CommitStatusSelector) (a1 a2 : RollupStatus) (l : List CommitStatusRec),
      (keys.foldl
        (fun acc sel =>
          match nonCopySlice (listCommitStatuses store sel.key sha) with
          | [cs] => (acc.1, acc.2 ++ [cs])
          | [] => ({ state := "no-commit-status-found", sha := "no-commit-status-found" },
              acc.2)
          | _ => ({ state := "to-many-matching-sha", sha := "to-many-matching-sha" }, acc.2))
        (a1, l)).2 =
      (keys.foldl
        (fun acc sel =>
          match nonCopySlice (listCommitStatuses store sel.key sha) with
          | [cs] => (acc.1, acc.2 ++ [cs])
          | [] => ({ state := "no-commit-status-found", sha := "no-commit-status-found" },
              acc.2)
          | _ => ({ state := "to-many-matching-sha", sha := "to-many-matching-sha" }, acc.2))
        (a2, l)).2 := by
  intro keys
  induction keys with
  | nil => intro a1 a2 l; rfl
  | cons sel rest ih =>
    intro a1 a2 l
    rw [List.foldl_cons, List.foldl_cons]
    cases hs : nonCopySlice (listCommitStatuses store sel.key sha) with
    | nil => exact ih _ _ _
    | cons c cs =>
      cases cs with
      | nil => exact ih _ _ _
      | cons c2 cs2 => exact ih _ _ _

theorem bubbleUpKeys_snd (store : List CommitStatusRec) (keys : List CommitStatusSelector)
    (sha : String) (a1 a2 : RollupStatus) :
    (bubbleUpKeys store keys sha a1).2 = (bubbleUpKeys store keys sha a2).2 :=
  bubbleUpKeys_go_snd store sha keys a1 a2 []

/-- The proposed rollup written by one loop iteration, when the collected
proposed list is non-empty: success overridden from the collected ACTIVE
list. -/
theorem rollupEnvEntry_proposed (spc : PromotionStrategySpec) (store : List CommitStatusRec)
    (environment : Environment) (pc : ProposedCommit) (i : Int) (entry : EnvironmentStatus)
    (hP : (bubbleUpKeys store (environment.proposedCommitStatuses ++ spc.proposedCommitStatuses)
        pc.status.proposed.hydrated.sha unknownRollup).2 ≠ []) :
    ((rollupEnvEntry spc store environment pc i entry).proposed.commitStatus.state =
      match (bubbleUpKeys store (environment.activeCommitStatuses ++ spc.activeCommitStatuses)
          pc.status.active.hydrated.sha unknownRollup).2.find?
          (fun cs => cs.statusState != "success") with
      | some cs => cs.spec.state
      | none => "success") ∧
    (∀ cs, (bubbleUpKeys store (environment.activeCommitStatuses ++ spc.activeCommitStatuses)
          pc.status.active.hydrated.sha unknownRollup).2.find?
          (fun cs => cs.statusState != "success") = some cs →
      (rollupEnvEntry spc store environment pc i entry).proposed.commitStatus.sha =
        cs.spec.sha) := by
  simp only [rollupEnvEntry]
  split
  · next hB =>
    have hsnd := bubbleUpKeys_snd store
      (environment.proposedCommitStatuses ++ spc.proposedCommitStatuses)
      pc.status.proposed.hydrated.sha
      { state := "success", sha := pc.status.active.hydrated.sha } unknownRollup
    have hnonempty : (bubbleUpKeys store
        (environment.proposedCommitStatuses ++ spc.proposedCommitStatuses)
        pc.status.proposed.hydrated.sha
        { state := "success", sha := pc.status.active.hydrated.sha }).2.isEmpty = false := by
      rw [hsnd]
      cases hx : (bubbleUpKeys store
          (environment.proposedCommitStatuses ++ spc.proposedCommitStatuses)
          pc.status.proposed.hydrated.sha unknownRollup).2 with
      | nil => exact absurd hx hP
      | cons a b => rfl
    rw [hnonempty]
    simp only [Bool.false_and, Bool.false_eq_true, if_false]
    have hCA := bubbleUpKeys_snd store
      (environment.activeCommitStatuses ++ spc.activeCommitStatuses)
      pc.status.active.hydrated.sha entry.active.commitStatus unknownRollup
    rw [hCA]
    unfold overrideRollup
    cases hf : (bubbleUpKeys store
        (environment.activeCommitStatuses ++ spc.activeCommitStatuses)
        pc.status.active.hydrated.sha unknownRollup).2.find?
        (fun cs => cs.statusState != "success") with
    | none => exact ⟨rfl, by intro cs hc; exact Option.noConfusion hc⟩
    | some cs =>
      refine ⟨rfl, ?_⟩
      intro cs1 hc
      have : cs = cs1 := Option.some.inj hc
      rw [← this]
  · next hB =>
    have hsnd := bubbleUpKeys_snd store
      (environment.proposedCommitStatuses ++ spc.proposedCommitStatuses)
      pc.status.proposed.hydrated.sha entry.proposed.commitStatus unknownRollup
    have hnonempty : (bubbleUpKeys store
        (environment.proposedCommitStatuses ++ spc.proposedCommitStatuses)
        pc.status.proposed.hydrated.sha entry.proposed.commitStatus).2.isEmpty = false := by
      rw [hsnd]
      cases hx : (bubbleUpKeys store
          (environment.proposedCommitStatuses ++ spc.proposedCommitStatuses)
          pc.status.proposed.hydrated.sha unknownRollup).2 with
      | nil => exact absurd hx hP
      | cons a b => rfl
    rw [hnonempty]
    simp only [Bool.false_and, Bool.false_eq_true, if_false]
    have hCA := bubbleUpKeys_snd store
      (environment.activeCommitStatuses ++ spc.activeCommitStatuses)
      pc.status.active.hydrated.sha entry.active.commitStatus unknownRollup
    rw [hCA]
    unfold overrideRollup
    cases hf : (bubbleUpKeys store
        (environment.activeCommitStatuses ++ spc.activeCommitStatuses)
        pc.status.active.hydrated.sha unknownRollup).2.find?
        (fun cs => cs.statusState != "success") with
    | none => exact ⟨rfl, by intro cs hc; exact Option.noConfusion hc⟩
    | some cs =>
      refine ⟨rfl, ?_⟩
      intro cs1 hc
      have : cs = cs1 := Option.some.inj hc
      rw [← this]

/-- calculateStatus of a fresh single-environment strategy reduces to one
loop iteration at index 0. -/
theorem calculateStatus_single (store : List CommitStatusRec) (psName : String)
    (environment : Environment) (gA gP : List CommitStatusSelector) (pc : ProposedCommit) :
    calculateStatus store
      { name := psName
        spec := { environments := [environment], activeCommitStatuses := gA,
                  proposedCommitStatuses := gP }
        statusEnvironments := [] }
      (fun b => if b == environment.branch then some pc else none) =
    Except.ok
      { name := psName
        spec := { environments := [environment], activeCommitStatuses := gA,
                  proposedCommitStatuses := gP }
        statusEnvironments :=
          [rollupEnvEntry
            { environments := [environment], activeCommitStatuses := gA,
              proposedCommitStatuses := gP }
            store environment pc 0 (freshEnvironmentStatus environment pc)] } := by
  have hstep : calcStep store (fun b => if b == environment.branch then some pc else none)
      { name := psName
        spec := { environments := [environment], activeCommitStatuses := gA,
                  proposedCommitStatuses := gP }
        statusEnvironments := [] } environment =
      Except.ok (calculateStatusEnv store
        { name := psName
          spec := { environments := [environment], activeCommitStatuses := gA,
                    proposedCommitStatuses := gP }
          statusEnvironments := [] } environment pc) := by
    unfold calcStep
    simp
  unfold calculateStatus
  rw [List.foldlM_cons, hstep]
  show Except.ok (calculateStatusEnv store
    { name := psName
      spec := { environments := [environment], activeCommitStatuses := gA,
                proposedCommitStatuses := gP }
      statusEnvironments := [] } environment pc) = _
  have hi : getEnvironmentStatusByBranch
      { name := psName
        spec := { environments := [environment], activeCommitStatuses := gA,
                  proposedCommitStatuses := gP }
        statusEnvironments := [freshEnvironmentStatus environment pc] } environment.branch =
      some (0, freshEnvironmentStatus environment pc) := by
    unfold getEnvironmentStatusByBranch getEnvironmentsFromStatusInOrder
    simp [findEnvAux, freshEnvironmentStatus]
  have hup : upsertEnvironmentStatus ([] : List EnvironmentStatus)
      (freshEnvironmentStatus environment pc) = [freshEnvironmentStatus environment pc] := rfl
  simp only [calculateStatusEnv, hup, deadGuard_false, Bool.false_eq_true, if_false, hi]
  rfl

/-! ### copyCommitStatuses under the all-copies-exist hypothesis -/

theorem copyMatching_all_updates (store : List CommitStatusRec) (f t b : String) :
    ∀ (l : List CommitStatusRec),
      (∀ cs ∈ l, getLabel cs.labels commitStatusCopyLabel ≠ "true" →
        (store.find? (fun c => c.name == "proposed-" ++ cs.name)).isSome = true) →
      copyMatching store f t b l =
        ((l.filter (fun cs => getLabel cs.labels commitStatusCopyLabel != "true")).map
          (fun cs => CSAction.update (mkUpdatedStatus (findCopy store cs) cs f t b)), false) := by
  intro l
  induction l with
  | nil => intro _; rfl
  | cons cs rest ih =>
    intro h
    by_cases hc : getLabel cs.labels commitStatusCopyLabel = "true"
    · have hcb : (getLabel cs.labels commitStatusCopyLabel == "true") = true := by
        simp [hc]
      simp only [copyMatching, hcb, if_true, List.filter]
      rw [show (getLabel cs.labels commitStatusCopyLabel != "true") = false by simp [hc]]
      exact ih (fun x hx => h x (List.mem_cons_of_mem _ hx))
    · have hcb : (getLabel cs.labels commitStatusCopyLabel == "true") = false := by
        simp [hc]
      have hsome := h cs (List.mem_cons_self _ _) hc
      cases hfind : store.find? (fun c => c.name == "proposed-" ++ cs.name) with
      | none => rw [hfind] at hsome; simp at hsome
      | some existing =>
        simp only [copyMatching, hcb, Bool.false_eq_true, if_false, hfind, List.filter]
        rw [show (getLabel cs.labels commitStatusCopyLabel != "true") = true by simp [hc]]
        rw [ih (fun x hx => h x (List.mem_cons_of_mem _ hx))]
        simp only [List.map_cons]
        have hfc : findCopy store cs = existing := by
          unfold findCopy
          rw [hfind]
          rfl
        rw [hfc]

theorem copyCommitStatuses_no_skip (store : List CommitStatusRec) (f t b : String) :
    ∀ (sel : List CommitStatusSelector),
      (∀ k ∈ sel, ∀ cs ∈ nonCopySlice (listCommitStatuses store k.key f),
        (store.find? (fun c => c.name == "proposed-" ++ cs.name)).isSome = true) →
      copyCommitStatuses store sel f t b =
        sel.flatMap (fun k => (nonCopySlice (listCommitStatuses store k.key f)).map
          (fun cs => CSAction.update (mkUpdatedStatus (findCopy store cs) cs f t b))) := by
  intro sel
  induction sel with
  | nil => intro _; rfl
  | cons k rest ih =>
    intro h
    have hinner : ∀ cs ∈ listCommitStatuses store k.key f,
        getLabel cs.labels commitStatusCopyLabel ≠ "true" →
        (store.find? (fun c => c.name == "proposed-" ++ cs.name)).isSome = true := by
      intro cs hcs hnc
      apply h k (List.mem_cons_self _ _) cs
      unfold nonCopySlice
      rw [List.mem_filter]
      refine ⟨hcs, ?_⟩
      simp [hnc]
    simp only [copyCommitStatuses]
    rw [copyMatching_all_updates store f t b (listCommitStatuses store k.key f) hinner]
    simp only [Bool.false_eq_true, if_false, List.flatMap_cons]
    rw [ih (fun k1 hk1 => h k1 (List.mem_cons_of_mem _ hk1))]
    rfl

/-! ## Claim theorems for the PromotionStrategy reconciler -/

/-- C1.  The claim says that an environment whose effective active check key
list collects nothing gets its ACTIVE rolled-up commit status set to success
with the active hydrated sha.  The code is wrong: in the active bubbling
section the empty-collected-list branch writes the PROPOSED rollup
(promotionstrategy_controller.go lines 334-335) and the active rollup stays
at the unknown initialization.  Evaluated at the concrete one-environment
strategy psC1 with zero configured checks. -/
theorem zero_checks_sets_proposed_not_active :
    (calculateStatus [] psC1 pcMapC1).toOption.map (fun ps =>
      ((getIdx ps.statusEnvironments 0).active.commitStatus,
       (getIdx ps.statusEnvironments 0).proposed.commitStatus)) =
      some ({ state := "unknown", sha := "unknown" },
            { state := "success", sha := "H1" }) := by
  decide

/-- C2.  A PullRequest flip from desired open to desired merged for the spec
environment at index j ≥ 1 only happens when the previous environment's
(index j-1) active rolled-up commit status is success, its active dry sha
equals the current environment's proposed dry sha, and its active dry commit
time is strictly after the current one's. -/
theorem merge_requires_previous_success (store : List CommitStatusRec)
    (prStore : List PullRequest) (ps0 : PromotionStrategy)
    (pcMap : String → Option ProposedCommit) (out : PromotionReconcileOutcome)
    (j : Nat) (e pe : Environment) (prName : String)
    (hnd : (ps0.spec.environments.map Environment.branch).Nodup)
    (hpre : ps0.statusEnvironments.map EnvironmentStatus.branch =
      (ps0.spec.environments.map Environment.branch).take ps0.statusEnvironments.length)
    (hj : ps0.spec.environments[j]? = some e)
    (hj1 : 1 ≤ j)
    (hpe : ps0.spec.environments[j - 1]? = some pe)
    (hout : reconcilePromotionStrategy store prStore ps0 pcMap = Except.ok out)
    (hflip : (e.branch, prName) ∈ out.mergedPRs) :
    (out.ps.statusEnvironments[j - 1]?.getD emptyEnvironmentStatus).branch = pe.branch ∧
    (out.ps.statusEnvironments[j - 1]?.getD
        emptyEnvironmentStatus).active.commitStatus.state = "success" ∧
    (out.ps.statusEnvironments[j - 1]?.getD emptyEnvironmentStatus).active.dry.sha =
      ((pcMap e.branch).getD emptyProposedCommit).status.proposed.dry.sha ∧
    (out.ps.statusEnvironments[j]?.getD emptyEnvironmentStatus).active.dry.commitTime <
      (out.ps.statusEnvironments[j - 1]?.getD
        emptyEnvironmentStatus).active.dry.commitTime := by
  obtain ⟨hspec, halign, h1, h2, h3, _, _⟩ :=
    flip_decomp store prStore ps0 pcMap out j e prName hnd hpre hj hj1 hout hflip
  have hbranch : (out.ps.statusEnvironments[j - 1]?.getD
      emptyEnvironmentStatus).branch = pe.branch := by
    have hb : Option.map EnvironmentStatus.branch out.ps.statusEnvironments[j - 1]? =
        some pe.branch := by
      rw [← List.getElem?_map, halign, List.getElem?_map, hpe]
      rfl
    cases hx : out.ps.statusEnvironments[j - 1]? with
    | none => rw [hx] at hb; exact Option.noConfusion hb
    | some x =>
      rw [hx] at hb
      simpa using hb
  exact ⟨hbranch, h1, h2, h3⟩

/-- Witness for C2 on scenario S: the test environment (index 1) is flipped,
and the dev environment's rollup indeed shows success on the matching dry
sha with a newer commit time. -/
theorem merge_requires_previous_success_witness :
    ((psS.spec.environments.map Environment.branch).Nodup ∧
     psS.statusEnvironments.map EnvironmentStatus.branch =
       (psS.spec.environments.map Environment.branch).take psS.statusEnvironments.length ∧
     psS.spec.environments[1]? = some envTestS ∧
     1 ≤ 1 ∧
     psS.spec.environments[0]? = some envDevS ∧
     reconcilePromotionStrategy storeS prStoreS psS pcMapS = Except.ok outS ∧
     (envTestS.branch, "pr-test") ∈ outS.mergedPRs) ∧
    ((outS.ps.statusEnvironments[0]?.getD emptyEnvironmentStatus).branch = envDevS.branch ∧
     (outS.ps.statusEnvironments[0]?.getD
        emptyEnvironmentStatus).active.commitStatus.state = "success" ∧
     (outS.ps.statusEnvironments[0]?.getD emptyEnvironmentStatus).active.dry.sha =
       ((pcMapS envTestS.branch).getD emptyProposedCommit).status.proposed.dry.sha ∧
     (outS.ps.statusEnvironments[1]?.getD emptyEnvironmentStatus).active.dry.commitTime <
       (outS.ps.statusEnvironments[0]?.getD
          emptyEnvironmentStatus).active.dry.commitTime) :=
  ⟨⟨by decide, by decide, by decide, by decide, by decide, by rfl, by decide⟩,
   merge_requires_previous_success storeS prStoreS psS pcMapS outS 1 envTestS envDevS
     "pr-test" (by decide) (by decide) (by decide) (by decide) (by decide) (by rfl)
     (by decide)⟩

/-- C3 counterexample.  The claim says the reconciler never flips the PR of
a non-first environment whose OWN active rolled-up state is not success.  In
scenario S the test environment's own active rollup is pending, yet its PR
is flipped from open to merged (the gate only consults the PREVIOUS
environment's active rollup and the current PROPOSED rollup). -/
theorem own_active_not_consulted_cex :
    ("test", "pr-test") ∈ outS.mergedPRs ∧
    (getIdx outS.ps.statusEnvironments 1).branch = "test" ∧
    (getIdx outS.ps.statusEnvironments 1).active.commitStatus.state = "pending" ∧
    prTestS.specState = "open" ∧
    outS.prStore.map PullRequest.specState = ["merged"] := by
  decide

/-- C3 amended.  For a non-first environment, if the PREVIOUS environment's
active rolled-up commit status state is not success, the PR for the
environment is never flipped from open to merged. -/
theorem no_merge_when_previous_not_success (store : List CommitStatusRec)
    (prStore : List PullRequest) (ps0 : PromotionStrategy)
    (pcMap : String → Option ProposedCommit) (out : PromotionReconcileOutcome)
    (j : Nat) (e : Environment)
    (hnd : (ps0.spec.environments.map Environment.branch).Nodup)
    (hpre : ps0.statusEnvironments.map EnvironmentStatus.branch =
      (ps0.spec.environments.map Environment.branch).take ps0.statusEnvironments.length)
    (hj : ps0.spec.environments[j]? = some e)
    (hj1 : 1 ≤ j)
    (hout : reconcilePromotionStrategy store prStore ps0 pcMap = Except.ok out)
    (hns : (out.ps.statusEnvironments[j - 1]?.getD
        emptyEnvironmentStatus).active.commitStatus.state ≠ "success") :
    ∀ prName, (e.branch, prName) ∉ out.mergedPRs := by
  intro prName hflip
  obtain ⟨_, _, h1, _⟩ :=
    flip_decomp store prStore ps0 pcMap out j e prName hnd hpre hj hj1 hout hflip
  exact hns h1

/-- Witness for the amended C3 on scenario T (dev's check pending): the test
PR is not flipped. -/
theorem no_merge_when_previous_not_success_witness :
    ((psS.spec.environments.map Environment.branch).Nodup ∧
     psS.statusEnvironments.map EnvironmentStatus.branch =
       (psS.spec.environments.map Environment.branch).take psS.statusEnvironments.length ∧
     psS.spec.environments[1]? = some envTestS ∧
     1 ≤ 1 ∧
     reconcilePromotionStrategy storeT prStoreS psS pcMapS = Except.ok outT ∧
     (outT.ps.statusEnvironments[0]?.getD
        emptyEnvironmentStatus).active.commitStatus.state ≠ "success") ∧
    (envTestS.branch, "pr-test") ∉ outT.mergedPRs :=
  ⟨⟨by decide, by decide, by decide, by decide, by rfl, by decide⟩,
   no_merge_when_previous_not_success storeT prStoreS psS pcMapS outT 1 envTestS
     (by decide) (by decide) (by decide) (by decide) (by rfl) (by decide) "pr-test"⟩

/-- C4 counterexample.  The claim says the proposed rollup, when the
collected PROPOSED list is non-empty, is overridden by the first non-success
entry of that PROPOSED list.  At psC4 the only proposed check is a failure,
yet the proposed rollup ends as success, because the override loop of the
source scans the collected ACTIVE list (empty here). -/
theorem proposed_override_ignores_proposed_cex :
    (calculateStatus storeC4 psC4 pcMapC4).toOption.map (fun ps =>
      (getIdx ps.statusEnvironments 0).proposed.commitStatus.state) = some "success" ∧
    (bubbleUpKeys storeC4 [{ key := "scan" }] "HQAN" unknownRollup).2 = [csScanC4] ∧
    csScanC4.statusState ≠ "success" ∧
    csScanC4.spec.state = "failure" := by
  decide

/-- C4 amended.  The proposed-checks roll-up mirrors the active procedure on
the proposed keys, but when the collected proposed list is non-empty the
success value is overridden by the first entry of the collected ACTIVE list
whose status.state is not success, taking that entry's spec.state and
spec.sha. -/
theorem proposed_override_scans_active_list (store : List CommitStatusRec)
    (psName : String) (environment : Environment) (gA gP : List CommitStatusSelector)
    (pc : ProposedCommit) (ps1 : PromotionStrategy)
    (hP : (bubbleUpKeys store (environment.proposedCommitStatuses ++ gP)
        pc.status.proposed.hydrated.sha unknownRollup).2 ≠ [])
    (hcalc : calculateStatus store
      { name := psName
        spec := { environments := [environment], activeCommitStatuses := gA,
                  proposedCommitStatuses := gP }
        statusEnvironments := [] }
      (fun b => if b == environment.branch then some pc else none) = Except.ok ps1) :
    ((getIdx ps1.statusEnvironments 0).proposed.commitStatus.state =
      match (bubbleUpKeys store (environment.activeCommitStatuses ++ gA)
          pc.status.active.hydrated.sha unknownRollup).2.find?
          (fun cs => cs.statusState != "success") with
      | some cs => cs.spec.state
      | none => "success") ∧
    (∀ cs, (bubbleUpKeys store (environment.activeCommitStatuses ++ gA)
          pc.status.active.hydrated.sha unknownRollup).2.find?
          (fun cs => cs.statusState != "success") = some cs →
      (getIdx ps1.statusEnvironments 0).proposed.commitStatus.sha = cs.spec.sha) := by
  rw [calculateStatus_single] at hcalc
  have h := Except.ok.inj hcalc
  subst h
  exact rollupEnvEntry_proposed
    { environments := [environment], activeCommitStatuses := gA,
      proposedCommitStatuses := gP }
    store environment pc 0 (freshEnvironmentStatus environment pc) hP

/-- Witness for the amended C4: an active key with a pending match and a
proposed key with an existing match; the proposed rollup takes the pending
state from the collected ACTIVE list. -/
theorem proposed_override_scans_active_list_witness :
    ((bubbleUpKeys storeC4w (envC4w.proposedCommitStatuses ++ [])
        pcC4.status.proposed.hydrated.sha unknownRollup).2 ≠ [] ∧
     calculateStatus storeC4w psC4w
        (fun b => if b == envC4w.branch then some pcC4 else none) =
       Except.ok psC4wResult) ∧
    ((getIdx psC4wResult.statusEnvironments 0).proposed.commitStatus.state =
      match (bubbleUpKeys storeC4w (envC4w.activeCommitStatuses ++ [])
          pcC4.status.active.hydrated.sha unknownRollup).2.find?
          (fun cs => cs.statusState != "success") with
      | some cs => cs.spec.state
      | none => "success") :=
  ⟨⟨by decide, by rfl⟩,
   (proposed_override_scans_active_list storeC4w "ps" envC4w [] [] pcC4 psC4wResult
     (by decide) (by rfl)).1⟩

/-! ## Claim theorems for copyCommitStatuses -/

/-- C5 counterexample.  The claim says no matching status is skipped in one
invocation.  With one key matching two plain statuses and no pre-existing
copies, the function creates the copy for the first and returns, emitting a
single action although two statuses match. -/
theorem copy_statuses_early_return_cex :
    copyCommitStatuses storeC5 selC5 "F" "T" "dev" =
      [CSAction.create (mkCopiedStatus cs1C5 "F" "T" "dev")] ∧
    nonCopySlice (listCommitStatuses storeC5 "k" "F") = [cs1C5, cs2C5] := by
  decide

/-- Witness for the amended C5 on a store where both proposed copies already
exist: every matching status is updated in place, none skipped. -/
theorem copy_statuses_no_skip_witness :
    (∀ k ∈ selC5, ∀ cs ∈ nonCopySlice (listCommitStatuses storeC5w k.key "F"),
      (storeC5w.find? (fun c => c.name == "proposed-" ++ cs.name)).isSome = true) ∧
    copyCommitStatuses storeC5w selC5 "F" "T" "dev" =
      selC5.flatMap (fun k => (nonCopySlice (listCommitStatuses storeC5w k.key "F")).map
        (fun cs => CSAction.update (mkUpdatedStatus (findCopy storeC5w cs) cs "F" "T" "dev"))) :=
  ⟨by decide, copyCommitStatuses_no_skip storeC5w "F" "T" "dev" selC5 (by decide)⟩

/-! ## Claim theorems for the requeue result and the PullRequest reconciler -/

/-- C6.  Every successful PromotionStrategy reconciliation returns the
hardcoded requeue-after of 10 seconds, not the configured requeue duration
whose flag default in cmd/main.go is 60 seconds. -/
theorem requeue_hardcoded_ten (store : List CommitStatusRec) (prStore : List PullRequest)
    (ps0 : PromotionStrategy) (pcMap : String → Option ProposedCommit)
    (out : PromotionReconcileOutcome)
    (hout : reconcilePromotionStrategy store prStore ps0 pcMap = Except.ok out) :
    out.result = { requeue := true, requeueAfterSeconds := 10 } ∧
    out.result.requeueAfterSeconds ≠ promotionStrategyRequeueDefaultSeconds := by
  unfold reconcilePromotionStrategy at hout
  cases hcalc : calculateStatus store ps0 pcMap with
  | error e =>
    rw [hcalc] at hout
    exact Except.noConfusion hout
  | ok ps =>
    rw [hcalc] at hout
    have h := Except.ok.inj hout
    constructor
    · rw [← h]
    · rw [← h]
      show (10 : Nat) ≠ promotionStrategyRequeueDefaultSeconds
      decide

/-- Witness for C6 at the empty strategy. -/
theorem requeue_hardcoded_ten_witness :
    reconcilePromotionStrategy [] [] psE (fun _ => none) = Except.ok outE ∧
    (outE.result = { requeue := true, requeueAfterSeconds := 10 } ∧
     outE.result.requeueAfterSeconds ≠ promotionStrategyRequeueDefaultSeconds) :=
  ⟨by rfl, requeue_hardcoded_ten [] [] psE (fun _ => none) outE (by rfl)⟩

/-- C7.  In the PullRequest reconciler, when the provider reports no open PR
and the status state was previously set, the reconciliation deletes the
record and returns success; a not-found error on that self-delete is
swallowed, also returning success. -/
theorem pr_record_deleted_when_provider_pr_gone (pr : PullRequest) (oracle : PROracle)
    (hzero : pr.deletionTimestampIsZero = true)
    (hfin : pr.finalizers.contains prFinalizerName = true)
    (hfound : oracle.findOpen = some false)
    (hstate : pr.statusState ≠ "")
    (hdel : oracle.deleteResult = DeleteOutcome.ok ∨
      oracle.deleteResult = DeleteOutcome.notFound) :
    reconcilePullRequest pr oracle =
      { isErr := false, requeue := false, actions := [PRAction.deleteSelf] } := by
  have hsb : (pr.statusState != "") = true := by
    simp [hstate]
  unfold reconcilePullRequest handleFinalizer
  rw [hzero, hfin]
  simp only [if_true, Bool.not_true, Bool.false_eq_true, if_false, hfound]
  rw [hsb]
  simp only [Bool.not_false, Bool.true_and, if_true]
  rcases hdel with hdel | hdel <;> rw [hdel] <;> rfl

/-- Witness for C7 at a concrete open PR whose provider PR vanished, with a
not-found self-delete. -/
theorem pr_record_deleted_witness :
    (prW.deletionTimestampIsZero = true ∧
     prW.finalizers.contains prFinalizerName = true ∧
     oracleW.findOpen = some false ∧
     prW.statusState ≠ "" ∧
     (oracleW.deleteResult = DeleteOutcome.ok ∨
       oracleW.deleteResult = DeleteOutcome.notFound)) ∧
    reconcilePullRequest prW oracleW =
      { isErr := false, requeue := false, actions := [PRAction.deleteSelf] } :=
  ⟨⟨by decide, by decide, by decide, by decide, Or.inr (by decide)⟩,
   pr_record_deleted_when_provider_pr_gone prW oracleW (by decide) (by decide) (by decide)
     (by decide) (Or.inr (by decide))⟩

end Promoter
